import Mathlib

/-!
# Recording server (`server.js`): upload handler and room listing

A shallow embedding of `src/server.js`.

* JavaScript values arriving in a socket.io payload are `JSVal`; the handler
  inspects them through truthiness (`!roomId`), `typeof fileData === 'string'`
  and `path.join`'s string check only.
* The file tree is an association list from absolute, normalised paths (lists
  of segments) to entries.  `readdirSync` returns the names of a directory
  sorted, as `scandir` of libuv does.  The failures of `fs` calls that are
  modelled are the ones the tree and the path determine (`ENOENT`, `ENOTDIR`,
  `EISDIR`, `EEXIST`, a null character in a name); permissions, quotas and
  limits on the length of names are outside the model.
* `path.join` is the POSIX one, on an absolute base.
* `Buffer.from(s, 'base64')` never throws on a string; it is a field of
  `Runtime`, so that every theorem holds for whatever decoder the engine has.
  `base64Decode` is a reference decoder used in the concrete instances. The
  text with which an error message shows a value is a field of `Runtime` too.
* The listener receives a `Payload`: line 44 destructures it before the `try`
  begins, which throws for `undefined` and `null`.
* `GET /recordings/<name>` goes through `express.static` (line 26) before it
  reaches the route of lines 29-39; `getRecordings` is the two in that order,
  for names that are one ordinary path segment.
* `exec` starts the transcoder and returns; its callback runs later, exactly
  once, with the error of the child process or `null`.  The handler's result
  records the started conversion, and `execCallback` is the callback.
-/

namespace RecordingServer

/-! ## JavaScript values -/

/-- A value of a field of the event payload; a missing field is `undefined`. -/
inductive JSVal where
  | undefined
  | null
  | bool (b : Bool)
  | number (n : Int)
  | str (s : String)
  | object
  deriving DecidableEq, Repr

/-- JavaScript truthiness, as tested by `!v` and `if (v)`. -/
def JSVal.truthy : JSVal → Bool
  | .undefined => false
  | .null => false
  | .bool b => b
  | .number n => n != 0
  | .str s => s != ""
  | .object => true

/-- The text Node puts after `Received ` in an `ERR_INVALID_ARG_TYPE` message,
for the values whose text does not depend on the engine's number printing
(integral numbers below `1e21` in size). A reference for `Runtime.received`. -/
def JSVal.received : JSVal → String
  | .undefined => "undefined"
  | .null => "null"
  | .bool true => "type boolean (true)"
  | .bool false => "type boolean (false)"
  | .number n => "type number (" ++ toString n ++ ")"
  | .str s => "type string ('" ++ s ++ "')"
  | .object => "an instance of Object"

/-! ## Paths -/

/-- An absolute, normalised POSIX path: its segments, and whether the string
ends in a separator. -/
structure Path where
  segs : List String
  trailingSlash : Bool
  deriving DecidableEq, Repr

/-- Segments joined with a leading `/` each. -/
def renderSegs : List String → String
  | [] => ""
  | s :: rest => "/" ++ s ++ renderSegs rest

/-- The string of a path. -/
def Path.render (p : Path) : String :=
  if p.segs = [] then "/"
  else renderSegs p.segs ++ (if p.trailingSlash then "/" else "")

/-- Splitting at `/`: `cur` holds the characters of the segment being read. -/
def splitSlashAux : List Char → List Char → List (List Char)
  | cur, [] => [cur.reverse]
  | cur, c :: cs =>
    if c = '/' then cur.reverse :: splitSlashAux [] cs
    else splitSlashAux (c :: cur) cs

/-- The segments of a string between its `/` separators (possibly empty ones). -/
def splitSlash (s : String) : List String :=
  (splitSlashAux [] s.data).map String.mk

/-- One step of `normalizeString` for an absolute path: empty segments and `.`
are skipped, `..` removes the last segment kept so far (nothing at the root),
any other segment is kept. -/
def normStep (acc : List String) (seg : String) : List String :=
  if seg = "" ∨ seg = "." then acc
  else if seg = ".." then acc.dropLast
  else acc ++ [seg]

/-- The segments kept by `normalizeString` for an absolute path. -/
def normalizeSegs (segs : List String) : List String :=
  segs.foldl normStep []

/-- Whether a string ends in `/`. -/
def endsWithSlash (s : String) : Bool :=
  s.data.getLast? = some '/'

/-- `path.join(base, arg)` for an absolute base and a string `arg`: an empty
`arg` is ignored; otherwise `base + '/' + arg` is normalised, and a trailing
separator of `arg` is kept unless the result is the root. -/
def pathJoin (base : Path) (arg : String) : Path :=
  if arg = "" then base
  else
    let segs := normalizeSegs (base.segs ++ splitSlash arg)
    { segs := segs, trailingSlash := endsWithSlash arg && !segs.isEmpty }

/-- `path.join(base, v)` on a payload value: `validateString` throws a
`TypeError` for anything that is not a string; `received` is the engine's
text for the value. -/
def pathJoinVal (received : JSVal → String) (base : Path) (v : JSVal) :
    Except String Path :=
  match v with
  | .str s => .ok (pathJoin base s)
  | v => .error ("The \"path\" argument must be of type string. Received " ++ received v)

/-- A file name that is one ordinary path segment: not empty, not `.` or
`..`, and without a separator. -/
def isPlainName (s : String) : Bool :=
  s != "" && s != "." && s != ".." && !s.data.contains '/'

/-- Whether `p` is an entry of the directory `d` itself (not of a
subdirectory, and not `d` or something outside it). -/
def Path.directlyIn (p d : Path) : Prop :=
  p.segs ≠ [] ∧ p.segs.dropLast = d.segs

instance (p d : Path) : Decidable (p.directlyIn d) := by
  unfold Path.directlyIn; infer_instance

/-! ## The file tree -/

/-- What a path holds. -/
inductive Entry where
  | file (content : List Nat)
  | dir
  deriving DecidableEq, Repr

deriving instance DecidableEq for Except

/-- The file tree below the root, in creation order. -/
abbrev FS := List (List String × Entry)

/-- The entry stored under a key. -/
def lookup : FS → List String → Option Entry
  | [], _ => none
  | (q, e) :: rest, p => if q = p then some e else lookup rest p

/-- Replace the entry under a key where it stands, or add it at the end. -/
def setEntry : FS → List String → Entry → FS
  | [], p, e => [(p, e)]
  | (q, x) :: rest, p, e =>
    if q = p then (p, e) :: rest else (q, x) :: setEntry rest p e

/-- What a path holds; the root is a directory. -/
def stat (fs : FS) (p : List String) : Option Entry :=
  if p = [] then some .dir else lookup fs p

/-- Walks `pre/r₁`, `pre/r₁/r₂`, …: the error code of the first one that is
not a directory, if any. -/
def checkDirs (fs : FS) : List String → List String → Option String
  | _, [] => none
  | pre, s :: rest =>
    match stat fs (pre ++ [s]) with
    | some .dir => checkDirs fs (pre ++ [s]) rest
    | some (.file _) => some "ENOTDIR: not a directory"
    | none => some "ENOENT: no such file or directory"

/-- Whether a name of the path has a null character; `fs` refuses such a
path before it looks at the tree. -/
def hasNul (p : Path) : Bool :=
  p.segs.any (fun s => s.data.contains (Char.ofNat 0))

/-- A text with every null character written `\x00`, as an error message
shows it. -/
def escapeNul : List Char → List Char
  | [] => []
  | c :: cs =>
    if c = Char.ofNat 0 then Char.ofNat 92 :: 'x' :: '0' :: '0' :: escapeNul cs
    else c :: escapeNul cs

/-- The message of the `TypeError` that `fs` throws for such a path. -/
def nulMessage (p : Path) : String :=
  "The argument 'path' must be a string, Uint8Array, or URL without null bytes. " ++
    "Received '" ++ String.mk (escapeNul p.render.data) ++ "'"

/-- `fs.existsSync(p)`: never throws. -/
def existsSync (fs : FS) (p : Path) : Bool :=
  if hasNul p then false
  else
    match checkDirs fs [] p.segs.dropLast with
    | some _ => false
    | none =>
      match stat fs p.segs with
      | some .dir => true
      | some (.file _) => !p.trailingSlash
      | none => false

/-- The loop of `mkdirSync(_, {recursive: true})` below `pre`; `slash` says
whether the path ends in a separator. A regular file in the way is `EEXIST`
when it is the path itself, written without a trailing separator, and
`ENOTDIR` otherwise. -/
def mkdirGo (shown : String) (slash : Bool) :
    FS → List String → List String → Except String FS
  | fs, _, [] => .ok fs
  | fs, pre, s :: rest =>
    match stat fs (pre ++ [s]) with
    | some .dir => mkdirGo shown slash fs (pre ++ [s]) rest
    | some (.file _) =>
      if rest = [] ∧ slash = false then
        .error ("EEXIST: file already exists, mkdir '" ++ shown ++ "'")
      else .error ("ENOTDIR: not a directory, mkdir '" ++ shown ++ "'")
    | none => mkdirGo shown slash (setEntry fs (pre ++ [s]) .dir) (pre ++ [s]) rest

/-- `fs.mkdirSync(p, { recursive: true })`. -/
def mkdirSync (fs : FS) (p : Path) : Except String FS :=
  if hasNul p then .error (nulMessage p)
  else mkdirGo p.render p.trailingSlash fs [] p.segs

/-- `fs.writeFileSync(p, content)`: creates or truncates the file; the
directory above it must exist. -/
def writeFileSync (fs : FS) (p : Path) (content : List Nat) : Except String FS :=
  if hasNul p then .error (nulMessage p)
  else if p.segs = [] then
    .error ("EISDIR: illegal operation on a directory, open '" ++ p.render ++ "'")
  else
    match checkDirs fs [] p.segs.dropLast with
    | some code => .error (code ++ ", open '" ++ p.render ++ "'")
    | none =>
      if p.trailingSlash then
        .error ("EISDIR: illegal operation on a directory, open '" ++ p.render ++ "'")
      else
        match stat fs p.segs with
        | some .dir =>
          .error ("EISDIR: illegal operation on a directory, open '" ++ p.render ++ "'")
        | _ => .ok (setEntry fs p.segs (.file content))

/-- The name under which `q` is an entry of the directory `d`, if it is one. -/
def childName (d q : List String) : Option String :=
  if q ≠ [] ∧ q.dropLast = d then q.getLast? else none

/-- The order of `strcmp` on names, character by character (UTF-8 bytes
compare as code points do). -/
def charsLe : List Char → List Char → Bool
  | [], _ => true
  | _ :: _, [] => false
  | a :: as, b :: bs =>
    if a.toNat < b.toNat then true
    else if b.toNat < a.toNat then false
    else charsLe as bs

/-- Whether the name `a` comes before `b` or is `b`, in the order of `strcmp`. -/
def nameLe (a b : String) : Prop :=
  charsLe a.data b.data = true

instance (a b : String) : Decidable (nameLe a b) := by
  unfold nameLe; infer_instance

/-- The names of the entries of a directory as stored, unordered. -/
def entryNames (fs : FS) (d : List String) : List String :=
  fs.filterMap (fun x => childName d x.1)

/-- The names of the entries of a directory as `scandir` of libuv hands them
to `readdirSync`: sorted by name. -/
def children (fs : FS) (d : List String) : List String :=
  List.insertionSort nameLe (entryNames fs d)

/-- `fs.readdirSync(p)`. -/
def readdirSync (fs : FS) (p : Path) : Except String (List String) :=
  if hasNul p then .error (nulMessage p)
  else
    match checkDirs fs [] p.segs.dropLast with
    | some code => .error (code ++ ", scandir '" ++ p.render ++ "'")
    | none =>
      match stat fs p.segs with
      | some .dir => .ok (children fs p.segs)
      | some (.file _) => .error ("ENOTDIR: not a directory, scandir '" ++ p.render ++ "'")
      | none => .error ("ENOENT: no such file or directory, scandir '" ++ p.render ++ "'")

/-! ## Strings -/

/-- `s.replace(pat, rep)` with a string pattern, on characters: the first
occurrence of `pat` is replaced. (`rep` has no `$`.) -/
def replaceFirst (pat rep : List Char) : List Char → List Char
  | [] => if pat = [] then rep else []
  | c :: cs =>
    if pat.isPrefixOf (c :: cs) then rep ++ (c :: cs).drop pat.length
    else c :: replaceFirst pat rep cs

/-- The derived name: `fileName.replace('.aac', '.mp3')`. -/
def mp3FileName (fileName : String) : String :=
  String.mk (replaceFirst ".aac".data ".mp3".data fileName.data)

/-- Whether `pat` occurs somewhere in a list of characters. -/
def occursIn (pat : List Char) : List Char → Bool
  | [] => pat.isEmpty
  | c :: cs => pat.isPrefixOf (c :: cs) || occursIn pat cs

/-- Whether a string contains `.aac`. -/
def containsAac (s : String) : Bool :=
  occursIn ".aac".data s.data

/-! ## A reference base64 decoder -/

/-- The UTF-16 code units of a character. -/
def utf16Units (c : Char) : List Nat :=
  if c.toNat < 65536 then [c.toNat]
  else [55296 + (c.toNat - 65536) / 1024, 56320 + (c.toNat - 65536) % 1024]

/-- The low byte of every UTF-16 code unit of a text: what the decoder looks
at. -/
def lowBytes : List Char → List Nat
  | [] => []
  | c :: cs => (utf16Units c).map (fun u => u % 256) ++ lowBytes cs

/-- The value of a byte that is a character of the base64 or base64url
alphabet. -/
def unbase64 (n : Nat) : Option Nat :=
  if 65 ≤ n ∧ n ≤ 90 then some (n - 65)
  else if 97 ≤ n ∧ n ≤ 122 then some (n - 71)
  else if 48 ≤ n ∧ n ≤ 57 then some (n + 4)
  else if n = 43 ∨ n = 45 then some 62
  else if n = 47 ∨ n = 95 then some 63
  else none

/-- The values of the alphabet characters before the first `=` (byte 61);
any other byte is skipped. -/
def sextets : List Nat → List Nat
  | [] => []
  | c :: cs =>
    if c = 61 then []
    else
      match unbase64 c with
      | some v => v :: sextets cs
      | none => sextets cs

/-- Four values make three bytes; two or three left over make one or two. -/
def packBytes : List Nat → List Nat
  | a :: b :: c :: d :: rest =>
    (a * 4 + b / 16) % 256 :: ((b % 16) * 16 + c / 4) % 256 ::
      ((c % 4) * 64 + d) % 256 :: packBytes rest
  | [a, b, c] => [(a * 4 + b / 16) % 256, ((b % 16) * 16 + c / 4) % 256]
  | [a, b] => [(a * 4 + b / 16) % 256]
  | _ => []

/-- Lenient base64 decoding in the manner of Node. -/
def base64Decode (s : String) : List Nat :=
  packBytes (sextets (lowBytes s.data))

/-! ## The server -/

/-- What the code takes from the engine: `__dirname`,
`Buffer.from(_, 'base64')` on strings, and the text with which an error
message shows a value. -/
structure Runtime where
  dirname : List String
  bufferFromBase64 : String → List Nat
  received : JSVal → String

/-- `const recordingsDir = path.join(__dirname, 'recordings')`. -/
def recordingsDir (rt : Runtime) : Path :=
  pathJoin { segs := rt.dirname, trailingSlash := false } "recordings"

/-- The payload of an `upload-recording` event. -/
structure Request where
  roomId : JSVal
  userId : JSVal
  fileData : JSVal
  fileName : JSVal
  isRemote : JSVal
  deriving DecidableEq, Repr

/-- An event emitted to the socket of the request. `recording-saved` carries
`mp3FileName` only where the code puts that field in the payload. -/
inductive Event where
  | recordingSaved (fileName userId : JSVal) (mp3FileName : Option String)
  | saveError (error : String) (fileName userId : JSVal)
  deriving DecidableEq, Repr

/-- A started transcoder with what its callback closes over. -/
structure Conversion where
  roomDir : Path
  filePath : Path
  mp3FilePath : Path
  command : String
  fileName : JSVal
  userId : JSVal
  mp3FileName : String
  deriving DecidableEq, Repr

/-- What a run of the handler leaves: the file tree, the events emitted
before it returns, and the conversion it started, if any. -/
structure Outcome where
  fs : FS
  emitted : List Event
  launched : Option Conversion
  deriving DecidableEq, Repr

/-- Lines 54-56: `if (!fs.existsSync(roomDir)) fs.mkdirSync(roomDir, ...)`. -/
def ensureRoomDir (fs : FS) (roomDir : Path) : Except String FS :=
  if existsSync fs roomDir then .ok fs else mkdirSync fs roomDir

/-- The command line given to `exec`. -/
def ffmpegCommand (filePath mp3FilePath : Path) : String :=
  "ffmpeg -i \"" ++ filePath.render ++ "\" -acodec mp3 -ar 48000 -ab 192k -ac 2 \""
    ++ mp3FilePath.render ++ "\""

/-- The body of the inner `try` (lines 68-90) for a string `data`: the tree
it leaves, and either the started conversion or the message of what it threw. -/
def saveAndConvert (rt : Runtime) (fs : FS) (roomDir filePath : Path)
    (fileName : String) (userId : JSVal) (data : String) : FS × Except String Conversion :=
  let buffer := rt.bufferFromBase64 data
  if buffer.length < 100 then (fs, .error "File data too small, likely corrupted")
  else
    match writeFileSync fs filePath buffer with
    | .error m => (fs, .error m)
    | .ok fs2 =>
      let mp3 := mp3FileName fileName
      let mp3FilePath := pathJoin roomDir mp3
      (fs2, .ok
        { roomDir := roomDir, filePath := filePath, mp3FilePath := mp3FilePath,
          command := ffmpegCommand filePath mp3FilePath,
          fileName := .str fileName, userId := userId, mp3FileName := mp3 })

/-- The body of the outer `try` (lines 49-96): the tree it leaves, and either
what it emitted and started, or the message of what it threw. -/
def uploadBody (rt : Runtime) (fs : FS) (req : Request) :
    FS × Except String (List Event × Option Conversion) :=
  if !req.roomId.truthy || !req.userId.truthy || !req.fileName.truthy then
    (fs, .error "Missing required fields: roomId, userId, or fileName")
  else
    match pathJoinVal rt.received (recordingsDir rt) req.roomId with
    | .error m => (fs, .error m)
    | .ok roomDir =>
      match ensureRoomDir fs roomDir with
      | .error m => (fs, .error m)
      | .ok fs1 =>
        match req.fileName with
        | .str fileName =>
          let filePath := pathJoin roomDir fileName
          if req.isRemote.truthy then
            (fs1, .ok ([.recordingSaved req.fileName req.userId none], none))
          else
            match req.fileData with
            | .str data =>
              match saveAndConvert rt fs1 roomDir filePath fileName req.userId data with
              | (fs2, .ok conv) => (fs2, .ok ([], some conv))
              | (fs2, .error m) => (fs2, .error ("Base64 decoding failed: " ++ m))
            | _ => (fs1, .error "Unsupported file data format or missing data")
        | v =>
          (fs1, .error
            ("The \"path\" argument must be of type string. Received " ++ rt.received v))

/-- The body of the `upload-recording` listener up to its return (lines
45-100), on the fields that line 44 read from the payload: the outer `catch`
turns whatever was thrown into one `save-error`. -/
def uploadRecording (rt : Runtime) (fs : FS) (req : Request) : Outcome :=
  match uploadBody rt fs req with
  | (fs1, .ok (events, launched)) => { fs := fs1, emitted := events, launched := launched }
  | (fs1, .error m) =>
    { fs := fs1, emitted := [.saveError m req.fileName req.userId], launched := none }

/-- The callback given to `exec` (lines 81-89); `error` is the message of the
error of the child process, `none` for `null`. -/
def execCallback (conv : Conversion) (error : Option String) : List Event :=
  match error with
  | some m => [.saveError ("MP3 conversion failed: " ++ m) conv.fileName conv.userId]
  | none => [.recordingSaved conv.fileName conv.userId (some conv.mp3FileName)]

/-- Every event of one upload: those of the handler, then those of the
callback of the conversion it started. -/
def allEvents (out : Outcome) (error : Option String) : List Event :=
  out.emitted ++
    (match out.launched with
     | some conv => execCallback conv error
     | none => [])

/-- What socket.io hands to the listener as its first argument: `undefined`
when the event came without data, `null`, or anything else, which line 44
destructures into the five fields (a field that is not there is
`undefined`). -/
inductive Payload where
  | undefined
  | null
  | fields (req : Request)
  deriving DecidableEq, Repr

/-- The listener of `upload-recording` (lines 44-101) on what socket.io hands
it. The parameter list destructures the payload before the `try` begins:
for `undefined` and `null` that throws a `TypeError`, the promise of the
`async` listener is rejected with it (`.error`), and the body never runs. -/
def onUploadRecording (rt : Runtime) (fs : FS) : Payload → Except String Outcome
  | .undefined =>
    .error "Cannot destructure property 'roomId' of 'undefined' as it is undefined."
  | .null =>
    .error "Cannot destructure property 'roomId' of 'object null' as it is null."
  | .fields req => .ok (uploadRecording rt fs req)

/-- Every event that one `upload-recording` event brings about, for either
way the transcoder ends. -/
def uploadEvents (rt : Runtime) (fs : FS) (payload : Payload)
    (error : Option String) : List Event :=
  match onUploadRecording rt fs payload with
  | .ok out => allEvents out error
  | .error _ => []

/-- The tree after the listener has run. -/
def treeAfterUpload (rt : Runtime) (fs : FS) (payload : Payload) : FS :=
  match onUploadRecording rt fs payload with
  | .ok out => out.fs
  | .error _ => fs

/-- One element of the `files` array. -/
structure FileInfo where
  fileName : String
  url : String
  deriving DecidableEq, Repr

/-- What the route `GET /recordings/:roomId` does. -/
inductive Response where
  | notFound (error : String)
  | json (files : List FileInfo)
  | threw (message : String)
  deriving DecidableEq, Repr

/-- The element built for one name (lines 34-37). -/
def fileInfo (roomId file : String) : FileInfo :=
  { fileName := file, url := "/recordings/" ++ roomId ++ "/" ++ file }

/-- The route handler (lines 29-39); `roomId` is `req.params.roomId`. What
`readdirSync` throws leaves the handler. -/
def listRecordings (rt : Runtime) (fs : FS) (roomId : String) : Response :=
  let roomDir := pathJoin (recordingsDir rt) roomId
  if !existsSync fs roomDir then .notFound "Room not found"
  else
    match readdirSync fs roomDir with
    | .error m => .threw m
    | .ok names => .json (names.map (fileInfo roomId))

/-- Whether a path holds a regular file. -/
def isRegularFile (fs : FS) (p : List String) : Bool :=
  match stat fs p with
  | some (.file _) => true
  | _ => false

/-- What `fs.stat` finds at a path; `none` when it fails. -/
def statPath (fs : FS) (p : Path) : Option Entry :=
  if hasNul p then none
  else
    match checkDirs fs [] p.segs.dropLast with
    | some _ => none
    | none =>
      match stat fs p.segs with
      | some (.file content) => if p.trailingSlash then none else some (.file content)
      | some .dir => some .dir
      | none => none

/-- A name that can stand for `:roomId` in `GET /recordings/:roomId` and that
`express.static` treats as an ordinary name: one path segment, not a dotfile,
without a null character or a backslash. The name is the decoded one. -/
def isRoomSegment (s : String) : Bool :=
  isPlainName s && s.data.head? != some '.' && !s.data.contains (Char.ofNat 0) &&
    !s.data.contains (Char.ofNat 92)

/-- A request `GET /recordings/<name>` or, with `trailingSlash`,
`GET /recordings/<name>/`. -/
structure RoomUrl where
  name : String
  trailingSlash : Bool
  ordinary : isRoomSegment name = true

/-- What the client of a `GET` below `/recordings` gets. -/
inductive HttpResponse where
  | json404 (error : String)
  | json200 (files : List FileInfo)
  | movedPermanently
  | file200 (content : List Nat)
  | error500 (message : String)
  deriving DecidableEq, Repr

/-- The middleware `express.static(recordingsDir)` mounted on `/recordings`
(line 26), with the defaults of serve-static, on such a request. Without a
trailing slash it serves a regular file, answers a directory with `301` to
the same URL with `/` appended, and passes anything else on; with a trailing
slash it serves the regular file `index.html` of the directory and passes
anything else on. `none` is `next()`. -/
def serveStatic (rt : Runtime) (fs : FS) (url : RoomUrl) : Option HttpResponse :=
  let target := pathJoin (recordingsDir rt) url.name
  if url.trailingSlash then
    match statPath fs (pathJoin target "index.html") with
    | some (.file content) => some (.file200 content)
    | _ => none
  else
    match statPath fs target with
    | some (.file content) => some (.file200 content)
    | some .dir => some .movedPermanently
    | none => none

/-- The answer to `GET /recordings/<name>` (lines 26-39): the static
middleware first, then the route, which in Express matches with and without
the trailing slash; an error thrown in the route handler is answered `500`. -/
def getRecordings (rt : Runtime) (fs : FS) (url : RoomUrl) : HttpResponse :=
  match serveStatic rt fs url with
  | some response => response
  | none =>
    match listRecordings rt fs url.name with
    | .notFound error => .json404 error
    | .json files => .json200 files
    | .threw message => .error500 message

/-- In the words of the specification: the names of the regular files of a
directory, in enumeration order. -/
def regularFileNames (fs : FS) (d : List String) : List String :=
  List.insertionSort nameLe (fs.filterMap (fun x =>
    match x.2 with
    | .file _ => childName d x.1
    | .dir => none))

/-- In the words of the specification: whether the directory of a room
exists. -/
def roomDirExists (fs : FS) (roomDir : Path) : Bool :=
  existsSync fs roomDir && (stat fs roomDir.segs == some Entry.dir)

/-! ## Concrete instances -/

/-- A runtime with the reference decoder, installed in `/srv/app`. -/
def nodeRuntime : Runtime :=
  { dirname := ["srv", "app"], bufferFromBase64 := base64Decode,
    received := JSVal.received }

/-- The tree right after start-up: `/srv/app/recordings` exists and is empty. -/
def freshTree : FS :=
  [(["srv"], .dir), (["srv", "app"], .dir), (["srv", "app", "recordings"], .dir)]

/-- The base64 text of 200 zero bytes. -/
def zeros200 : String := String.mk (List.replicate 267 'A' ++ ['='])

/-- The base64 text of 100 zero bytes. -/
def zeros100 : String := String.mk (List.replicate 134 'A' ++ ['=', '='])

/-- The upload of the scenario of the specification. -/
def clipUpload : Request :=
  { roomId := .str "r1", userId := .str "u1", fileData := .str zeros200,
    fileName := .str "clip.aac", isRemote := .bool false }

/-- An upload into the recordings directory itself (`roomId` is `.`), which
leaves a regular file `/srv/app/recordings/a`. -/
def dotRoomUpload : Request :=
  { roomId := .str ".", userId := .str "u1", fileData := .str zeros100,
    fileName := .str "a", isRemote := .bool false }

/-- The tree after `dotRoomUpload` on the fresh tree. -/
def blockedTree : FS :=
  [(["srv"], .dir), (["srv", "app"], .dir), (["srv", "app", "recordings"], .dir),
   (["srv", "app", "recordings", "a"], .file (List.replicate 100 0))]

/-- An upload whose file name climbs out of the room directory. -/
def escapingUpload : Request :=
  { roomId := .str "r1", userId := .str "u1", fileData := .str zeros100,
    fileName := .str "../x.aac", isRemote := .bool false }

/-- A remote-flagged upload for room `r1`. -/
def remoteUpload : Request :=
  { roomId := .str "r1", userId := .str "u1", fileData := .undefined,
    fileName := .str "clip.aac", isRemote := .bool true }

/-- An upload whose file name names a directory that does not exist. -/
def nestedNameUpload : Request :=
  { roomId := .str "r1", userId := .str "u1", fileData := .str zeros100,
    fileName := .str "sub/clip.aac", isRemote := .bool false }

/-- The fresh tree with an empty room `r1`. -/
def emptyRoomTree : FS :=
  [(["srv"], .dir), (["srv", "app"], .dir), (["srv", "app", "recordings"], .dir),
   (["srv", "app", "recordings", "r1"], .dir)]

/-- A tree with a room `r1` that holds a recording and a subdirectory. -/
def nestedTree : FS :=
  [(["srv"], .dir), (["srv", "app"], .dir), (["srv", "app", "recordings"], .dir),
   (["srv", "app", "recordings", "r1"], .dir),
   (["srv", "app", "recordings", "r1", "sub"], .dir),
   (["srv", "app", "recordings", "r1", "clip.aac"], .file [1, 2, 3])]

/-! ## Lemmas on the file tree -/

theorem lookup_setEntry_same (fs : FS) (p : List String) (e : Entry) :
    lookup (setEntry fs p e) p = some e := by
  induction fs with
  | nil => simp [setEntry, lookup]
  | cons x rest ih =>
    obtain ⟨q, y⟩ := x
    by_cases h : q = p
    · simp [setEntry, lookup, h]
    · simp [setEntry, lookup, h, ih]

theorem lookup_setEntry_ne (fs : FS) (p q : List String) (e : Entry) (h : q ≠ p) :
    lookup (setEntry fs p e) q = lookup fs q := by
  induction fs with
  | nil => simp [setEntry, lookup, Ne.symm h]
  | cons x rest ih =>
    obtain ⟨r, y⟩ := x
    by_cases hr : r = p
    · subst hr
      simp [setEntry, lookup, Ne.symm h]
    · by_cases hq : r = q
      · subst hq
        simp [setEntry, lookup, hr]
      · simp [setEntry, lookup, hr, hq, ih]

theorem writeFileSync_ok {fs fs2 : FS} {p : Path} {content : List Nat}
    (h : writeFileSync fs p content = .ok fs2) :
    p.segs ≠ [] ∧ fs2 = setEntry fs p.segs (.file content) := by
  unfold writeFileSync at h
  split at h
  · cases h
  · split at h
    · cases h
    · rename_i hne
      refine ⟨hne, ?_⟩
      split at h
      · cases h
      · split at h
        · cases h
        · split at h
          · cases h
          · cases h; rfl

theorem stat_after_write {fs fs2 : FS} {p : Path} {content : List Nat}
    (h : writeFileSync fs p content = .ok fs2) :
    stat fs2 p.segs = some (.file content) := by
  obtain ⟨hne, rfl⟩ := writeFileSync_ok h
  simp [stat, hne, lookup_setEntry_same]

/-- Creating directories keeps every entry, and adds only directories on the
path that is being created. -/
theorem mkdirGo_preserves (shown : String) (slash : Bool) :
    ∀ (rest : List String) (fs fs1 : FS) (pre : List String),
      mkdirGo shown slash fs pre rest = .ok fs1 →
      (∀ q e, lookup fs q = some e → lookup fs1 q = some e) ∧
      (∀ q e, lookup fs1 q = some e →
        lookup fs q = some e ∨ (lookup fs q = none ∧ e = .dir ∧ q <+: pre ++ rest)) := by
  intro rest
  induction rest with
  | nil =>
    intro fs fs1 pre h
    simp only [mkdirGo, Except.ok.injEq] at h
    subst h
    exact ⟨fun _ _ h => h, fun _ _ h => Or.inl h⟩
  | cons s rest ih =>
    intro fs fs1 pre h
    have happ : pre ++ [s] ++ rest = pre ++ s :: rest := by simp
    unfold mkdirGo at h
    split at h
    · obtain ⟨h1, h2⟩ := ih fs fs1 _ h
      refine ⟨h1, fun q e hq => ?_⟩
      rcases h2 q e hq with h3 | ⟨h3, h4, h5⟩
      · exact Or.inl h3
      · exact Or.inr ⟨h3, h4, happ ▸ h5⟩
    · split at h <;> cases h
    · rename_i hnone
      have hne : pre ++ [s] ≠ [] := by simp
      have hlook : lookup fs (pre ++ [s]) = none := by
        simpa [stat, hne] using hnone
      have hpre : pre ++ [s] <+: pre ++ s :: rest := ⟨rest, happ⟩
      obtain ⟨h1, h2⟩ := ih _ fs1 _ h
      constructor
      · intro q e hq
        apply h1
        by_cases hqp : q = pre ++ [s]
        · subst hqp
          rw [hlook] at hq
          cases hq
        · rw [lookup_setEntry_ne _ _ _ _ hqp]
          exact hq
      · intro q e hq
        rcases h2 q e hq with h3 | ⟨h3, h4, h5⟩
        · by_cases hqp : q = pre ++ [s]
          · subst hqp
            rw [lookup_setEntry_same] at h3
            cases h3
            exact Or.inr ⟨hlook, rfl, hpre⟩
          · rw [lookup_setEntry_ne _ _ _ _ hqp] at h3
            exact Or.inl h3
        · by_cases hqp : q = pre ++ [s]
          · subst hqp
            exact Or.inr ⟨hlook, h4, hpre⟩
          · rw [lookup_setEntry_ne _ _ _ _ hqp] at h3
            exact Or.inr ⟨h3, h4, happ ▸ h5⟩

/-- The directory step keeps every entry, and adds only directories on the
path of the room directory. -/
theorem ensureRoomDir_adds {fs fs1 : FS} {roomDir : Path}
    (h : ensureRoomDir fs roomDir = .ok fs1) :
    (∀ q e, stat fs q = some e → stat fs1 q = some e) ∧
    (∀ q e, stat fs1 q = some e →
      stat fs q = some e ∨ (stat fs q = none ∧ e = .dir ∧ q <+: roomDir.segs)) := by
  have key : (∀ q e, lookup fs q = some e → lookup fs1 q = some e) ∧
      (∀ q e, lookup fs1 q = some e →
        lookup fs q = some e ∨
          (lookup fs q = none ∧ e = .dir ∧ q <+: [] ++ roomDir.segs)) := by
    unfold ensureRoomDir at h
    split at h
    · cases h
      exact ⟨fun _ _ h => h, fun _ _ h => Or.inl h⟩
    · unfold mkdirSync at h
      split at h
      · cases h
      · exact mkdirGo_preserves _ _ _ _ _ _ h
  constructor
  · intro q e hq
    by_cases hq0 : q = []
    · simpa [stat, hq0] using hq
    · simp only [stat, hq0, if_false] at hq ⊢
      exact key.1 q e hq
  · intro q e hq
    by_cases hq0 : q = []
    · left
      simpa [stat, hq0] using hq
    · simp only [stat, hq0, if_false] at hq ⊢
      simpa using key.2 q e hq

theorem ensureRoomDir_preserves {fs fs1 : FS} {roomDir : Path}
    (h : ensureRoomDir fs roomDir = .ok fs1) :
    (∀ q e, stat fs q = some e → stat fs1 q = some e) ∧
    (∀ q e, stat fs1 q = some e → stat fs q = some e ∨ (stat fs q = none ∧ e = .dir)) := by
  obtain ⟨h1, h2⟩ := ensureRoomDir_adds h
  refine ⟨h1, fun q e hq => ?_⟩
  rcases h2 q e hq with h3 | ⟨h3, h4, _⟩
  · exact Or.inl h3
  · exact Or.inr ⟨h3, h4⟩

/-- The directory step neither creates, changes nor removes a file. -/
theorem ensureRoomDir_files {fs fs1 : FS} {roomDir : Path}
    (h : ensureRoomDir fs roomDir = .ok fs1) (q : List String) (c : List Nat) :
    stat fs1 q = some (.file c) ↔ stat fs q = some (.file c) := by
  obtain ⟨h1, h2⟩ := ensureRoomDir_preserves h
  constructor
  · intro hq
    rcases h2 q _ hq with h3 | ⟨_, h4⟩
    · exact h3
    · cases h4
  · exact h1 q _

/-- When the directory is there already, the directory step does nothing. -/
theorem ensureRoomDir_of_exists {fs : FS} {roomDir : Path}
    (h : existsSync fs roomDir = true) : ensureRoomDir fs roomDir = .ok fs := by
  simp [ensureRoomDir, h]

/-! ## Lemmas on the handler -/

theorem truthy_str (s : String) : (JSVal.str s).truthy = true ↔ s ≠ "" := by
  simp [JSVal.truthy]

/-- The handler's body once validation, `path.join` and the directory step
have gone through. -/
theorem uploadBody_valid (rt : Runtime) (fs fs1 : FS) (req : Request)
    (roomId fileName : String)
    (hroomId : req.roomId = .str roomId) (hroom : roomId ≠ "")
    (huser : req.userId.truthy = true)
    (hfileName : req.fileName = .str fileName) (hfile : fileName ≠ "")
    (hdir : ensureRoomDir fs (pathJoin (recordingsDir rt) roomId) = .ok fs1) :
    uploadBody rt fs req =
      if req.isRemote.truthy then
        (fs1, .ok ([.recordingSaved (.str fileName) req.userId none], none))
      else
        match req.fileData with
        | .str data =>
          match saveAndConvert rt fs1 (pathJoin (recordingsDir rt) roomId)
              (pathJoin (pathJoin (recordingsDir rt) roomId) fileName) fileName
              req.userId data with
          | (fs2, .ok conv) => (fs2, .ok ([], some conv))
          | (fs2, .error m) => (fs2, .error ("Base64 decoding failed: " ++ m))
        | _ => (fs1, .error "Unsupported file data format or missing data") := by
  have h1 : (JSVal.str roomId).truthy = true := (truthy_str _).2 hroom
  have h2 : (JSVal.str fileName).truthy = true := (truthy_str _).2 hfile
  unfold uploadBody
  rw [hroomId, hfileName, h1, h2, huser]
  simp only [pathJoinVal, hdir]
  simp

theorem saveAndConvert_ok (rt : Runtime) (fs1 fs2 : FS) (roomDir filePath : Path)
    (fileName : String) (userId : JSVal) (data : String)
    (hlen : 100 ≤ (rt.bufferFromBase64 data).length)
    (hwrite : writeFileSync fs1 filePath (rt.bufferFromBase64 data) = .ok fs2) :
    saveAndConvert rt fs1 roomDir filePath fileName userId data =
      (fs2, .ok
        { roomDir := roomDir, filePath := filePath,
          mp3FilePath := pathJoin roomDir (mp3FileName fileName),
          command := ffmpegCommand filePath (pathJoin roomDir (mp3FileName fileName)),
          fileName := .str fileName, userId := userId,
          mp3FileName := mp3FileName fileName }) := by
  simp [saveAndConvert, Nat.not_lt.mpr hlen, hwrite]

/-- The whole result of a valid upload whose bytes get written. -/
theorem uploadRecording_written (rt : Runtime) (fs fs1 fs2 : FS) (req : Request)
    (roomId fileName data : String)
    (hroomId : req.roomId = .str roomId) (hroom : roomId ≠ "")
    (huser : req.userId.truthy = true)
    (hfileName : req.fileName = .str fileName) (hfile : fileName ≠ "")
    (hremote : req.isRemote.truthy = false)
    (hdata : req.fileData = .str data)
    (hlen : 100 ≤ (rt.bufferFromBase64 data).length)
    (hdir : ensureRoomDir fs (pathJoin (recordingsDir rt) roomId) = .ok fs1)
    (hwrite : writeFileSync fs1 (pathJoin (pathJoin (recordingsDir rt) roomId) fileName)
      (rt.bufferFromBase64 data) = .ok fs2) :
    uploadRecording rt fs req =
      { fs := fs2, emitted := [],
        launched := some
          { roomDir := pathJoin (recordingsDir rt) roomId,
            filePath := pathJoin (pathJoin (recordingsDir rt) roomId) fileName,
            mp3FilePath := pathJoin (pathJoin (recordingsDir rt) roomId) (mp3FileName fileName),
            command := ffmpegCommand (pathJoin (pathJoin (recordingsDir rt) roomId) fileName)
              (pathJoin (pathJoin (recordingsDir rt) roomId) (mp3FileName fileName)),
            fileName := .str fileName, userId := req.userId,
            mp3FileName := mp3FileName fileName } } := by
  rw [uploadRecording, uploadBody_valid rt fs fs1 req roomId fileName hroomId hroom huser
    hfileName hfile hdir, hremote, hdata]
  simp [saveAndConvert_ok rt fs1 fs2 _ _ fileName req.userId data hlen hwrite]

/-! ## The claims -/

/-- C1: for an upload with non-empty `roomId`, `userId` and `fileName`, a falsy
`isRemote`, and a string `fileData` that decodes to at least 100 bytes, when the
directory step and the write succeed, the tree the handler leaves on return is
the one the write produced, and it holds at
`join(join(recordingsDir, roomId), fileName)` a file whose content is exactly
the decoded payload. -/
theorem upload_stores_decoded_payload (rt : Runtime) (fs fs1 fs2 : FS) (req : Request)
    (roomId fileName data : String)
    (hroomId : req.roomId = .str roomId) (hroom : roomId ≠ "")
    (huser : req.userId.truthy = true)
    (hfileName : req.fileName = .str fileName) (hfile : fileName ≠ "")
    (hremote : req.isRemote.truthy = false)
    (hdata : req.fileData = .str data)
    (hlen : 100 ≤ (rt.bufferFromBase64 data).length)
    (hdir : ensureRoomDir fs (pathJoin (recordingsDir rt) roomId) = .ok fs1)
    (hwrite : writeFileSync fs1 (pathJoin (pathJoin (recordingsDir rt) roomId) fileName)
      (rt.bufferFromBase64 data) = .ok fs2) :
    (uploadRecording rt fs req).fs = fs2 ∧
      stat (uploadRecording rt fs req).fs
        (pathJoin (pathJoin (recordingsDir rt) roomId) fileName).segs
        = some (.file (rt.bufferFromBase64 data)) := by
  rw [uploadRecording_written rt fs fs1 fs2 req roomId fileName data hroomId hroom huser
    hfileName hfile hremote hdata hlen hdir hwrite]
  exact ⟨rfl, stat_after_write hwrite⟩

set_option maxRecDepth 100000 in
/-- The scenario of the specification: the base64 text of 200 zero bytes sent
as `clip.aac` for room `r1` leaves a file of 200 zero bytes at
`/srv/app/recordings/r1/clip.aac`. -/
theorem upload_stores_decoded_payload_witness :
    (pathJoin (pathJoin (recordingsDir nodeRuntime) "r1") "clip.aac").render
        = "/srv/app/recordings/r1/clip.aac" ∧
      nodeRuntime.bufferFromBase64 zeros200 = List.replicate 200 0 ∧
      stat (uploadRecording nodeRuntime freshTree clipUpload).fs
        (pathJoin (pathJoin (recordingsDir nodeRuntime) "r1") "clip.aac").segs
        = some (.file (nodeRuntime.bufferFromBase64 zeros200)) :=
  ⟨by decide, by decide,
    (upload_stores_decoded_payload nodeRuntime freshTree
      (freshTree ++ [(["srv", "app", "recordings", "r1"], Entry.dir)])
      (freshTree ++ [(["srv", "app", "recordings", "r1"], Entry.dir),
        (["srv", "app", "recordings", "r1", "clip.aac"], Entry.file (List.replicate 200 0))])
      clipUpload "r1" "clip.aac" zeros200 rfl (by decide) (by decide) rfl (by decide)
      (by decide) rfl (by decide) (by decide) (by decide)).2⟩

/-- C2: for a valid non-remote upload whose bytes get written, the handler
emits nothing before it returns and starts one conversion; whichever way the
transcoder ends, the upload has exactly one event in all: `recording-saved`
with `fileName`, `userId` and the derived `mp3FileName` when it succeeds,
`save-error` with the transcoder's message (after `MP3 conversion failed: `),
`fileName` and `userId` when it fails. -/
theorem upload_emits_exactly_one_event (rt : Runtime) (fs fs1 fs2 : FS) (req : Request)
    (roomId fileName data : String)
    (hroomId : req.roomId = .str roomId) (hroom : roomId ≠ "")
    (huser : req.userId.truthy = true)
    (hfileName : req.fileName = .str fileName) (hfile : fileName ≠ "")
    (hremote : req.isRemote.truthy = false)
    (hdata : req.fileData = .str data)
    (hlen : 100 ≤ (rt.bufferFromBase64 data).length)
    (hdir : ensureRoomDir fs (pathJoin (recordingsDir rt) roomId) = .ok fs1)
    (hwrite : writeFileSync fs1 (pathJoin (pathJoin (recordingsDir rt) roomId) fileName)
      (rt.bufferFromBase64 data) = .ok fs2) :
    (uploadRecording rt fs req).emitted = [] ∧
      allEvents (uploadRecording rt fs req) none
        = [.recordingSaved req.fileName req.userId (some (mp3FileName fileName))] ∧
      ∀ m : String, allEvents (uploadRecording rt fs req) (some m)
        = [.saveError ("MP3 conversion failed: " ++ m) req.fileName req.userId] := by
  rw [uploadRecording_written rt fs fs1 fs2 req roomId fileName data hroomId hroom huser
    hfileName hfile hremote hdata hlen hdir hwrite, hfileName]
  simp [allEvents, execCallback]

set_option maxRecDepth 100000 in
/-- The scenario of the specification: on transcoder success the client gets
`recording-saved {fileName: "clip.aac", userId: "u1", mp3FileName: "clip.mp3"}`. -/
theorem upload_emits_exactly_one_event_witness :
    allEvents (uploadRecording nodeRuntime freshTree clipUpload) none
        = [.recordingSaved (.str "clip.aac") (.str "u1") (some "clip.mp3")] ∧
      allEvents (uploadRecording nodeRuntime freshTree clipUpload) (some "exit code 1")
        = [.saveError "MP3 conversion failed: exit code 1" (.str "clip.aac") (.str "u1")] :=
  have h := upload_emits_exactly_one_event nodeRuntime freshTree
    (freshTree ++ [(["srv", "app", "recordings", "r1"], Entry.dir)])
    (freshTree ++ [(["srv", "app", "recordings", "r1"], Entry.dir),
      (["srv", "app", "recordings", "r1", "clip.aac"], Entry.file (List.replicate 200 0))])
    clipUpload "r1" "clip.aac" zeros200 rfl (by decide) (by decide) rfl (by decide)
    (by decide) rfl (by decide) (by decide) (by decide)
  ⟨h.2.1.trans (by decide), (h.2.2 "exit code 1").trans (by decide)⟩

/-- C3 as stated fails: an `upload-recording` event that comes without data
(or with `null`) has none of `roomId`, `userId`, `fileName`, and line 44
throws while it destructures the payload, before the `try` of line 47: no
`save-error` and no other event is emitted. -/
theorem missing_field_counterexample :
    onUploadRecording nodeRuntime freshTree .undefined
        = .error "Cannot destructure property 'roomId' of 'undefined' as it is undefined." ∧
      uploadEvents nodeRuntime freshTree .undefined none = [] ∧
      uploadEvents nodeRuntime freshTree .null none = [] ∧
      uploadEvents nodeRuntime freshTree .undefined none
        ≠ [.saveError "Missing required fields: roomId, userId, or fileName"
            .undefined .undefined] := by
  decide

/-- C3, amended: for an `upload-recording` event whose payload can be
destructured (anything but `undefined` and `null`) and in which one of
`roomId`, `userId`, `fileName` is missing or empty (falsy), whatever
`fileData` and `isRemote` are, the handler runs to its end, leaves the tree as
it was, starts no conversion, and the event brings about exactly one event:
`save-error` with the fixed message and the `fileName` and `userId` of the
request. -/
theorem missing_field_rejected (rt : Runtime) (fs : FS) (req : Request)
    (h : req.roomId.truthy = false ∨ req.userId.truthy = false ∨
      req.fileName.truthy = false) :
    onUploadRecording rt fs (.fields req) =
        .ok { fs := fs,
              emitted := [.saveError "Missing required fields: roomId, userId, or fileName"
                req.fileName req.userId],
              launched := none } ∧
      (∀ error : Option String, uploadEvents rt fs (.fields req) error
        = [.saveError "Missing required fields: roomId, userId, or fileName"
            req.fileName req.userId]) ∧
      treeAfterUpload rt fs (.fields req) = fs := by
  have hout : uploadRecording rt fs req =
      { fs := fs,
        emitted := [.saveError "Missing required fields: roomId, userId, or fileName"
          req.fileName req.userId],
        launched := none } := by
    rcases h with h | h | h <;> simp [uploadRecording, uploadBody, h]
  refine ⟨?_, fun error => ?_, ?_⟩
  · simp only [onUploadRecording, hout]
  · simp only [uploadEvents, onUploadRecording, hout]
    simp [allEvents]
  · simp only [treeAfterUpload, onUploadRecording, hout]

/-- A request without `userId`, with a payload and the remote flag set. -/
theorem missing_field_rejected_witness :
    onUploadRecording nodeRuntime freshTree
        (.fields { roomId := .str "r1", userId := .undefined, fileData := .str zeros200,
                   fileName := .str "clip.aac", isRemote := .bool true }) =
      .ok { fs := freshTree,
            emitted := [.saveError "Missing required fields: roomId, userId, or fileName"
              (.str "clip.aac") .undefined],
            launched := none } :=
  (missing_field_rejected nodeRuntime freshTree
    { roomId := .str "r1", userId := .undefined, fileData := .str zeros200,
      fileName := .str "clip.aac", isRemote := .bool true }
    (Or.inr (Or.inl rfl))).1

set_option maxRecDepth 100000 in
/-- The tree `blockedTree` is what the handler itself leaves after the upload
`dotRoomUpload` on the fresh tree. -/
theorem blockedTree_reachable :
    (uploadRecording nodeRuntime freshTree dotRoomUpload).fs = blockedTree := by
  decide

/-- C4 as stated fails: `/srv/app/recordings/a` is a regular file, and a
non-remote upload for room `a/b` with all fields present and the empty string
as `fileData` (0 bytes, fewer than 100) is answered with the error of
`mkdirSync`, not with the `too small` one. -/
theorem small_payload_counterexample :
    (JSVal.str "a/b").truthy = true ∧ (JSVal.str "u1").truthy = true ∧
      (JSVal.str "c.aac").truthy = true ∧ (JSVal.bool false).truthy = false ∧
      (nodeRuntime.bufferFromBase64 "").length < 100 ∧
      (uploadRecording nodeRuntime blockedTree
          { roomId := .str "a/b", userId := .str "u1", fileData := .str "",
            fileName := .str "c.aac", isRemote := .bool false }).emitted
        = [.saveError "ENOTDIR: not a directory, mkdir '/srv/app/recordings/a/b'"
            (.str "c.aac") (.str "u1")] ∧
      (uploadRecording nodeRuntime blockedTree
          { roomId := .str "a/b", userId := .str "u1", fileData := .str "",
            fileName := .str "c.aac", isRemote := .bool false }).emitted
        ≠ [.saveError "Base64 decoding failed: File data too small, likely corrupted"
            (.str "c.aac") (.str "u1")] := by
  decide

/-- C4, amended: for a non-remote upload with the required fields present and
a string `fileData` that decodes to fewer than 100 bytes, when the directory
step succeeds, the handler emits exactly one event, `save-error` with
`Base64 decoding failed: File data too small, likely corrupted`, starts no
conversion, and leaves every file as it was: the tree has the same files with
the same contents as before. -/
theorem small_payload_rejected (rt : Runtime) (fs fs1 : FS) (req : Request)
    (roomId fileName data : String)
    (hroomId : req.roomId = .str roomId) (hroom : roomId ≠ "")
    (huser : req.userId.truthy = true)
    (hfileName : req.fileName = .str fileName) (hfile : fileName ≠ "")
    (hremote : req.isRemote.truthy = false)
    (hdata : req.fileData = .str data)
    (hlen : (rt.bufferFromBase64 data).length < 100)
    (hdir : ensureRoomDir fs (pathJoin (recordingsDir rt) roomId) = .ok fs1) :
    (uploadRecording rt fs req).emitted
        = [.saveError "Base64 decoding failed: File data too small, likely corrupted"
            req.fileName req.userId] ∧
      (∀ error : Option String, allEvents (uploadRecording rt fs req) error
        = [.saveError "Base64 decoding failed: File data too small, likely corrupted"
            req.fileName req.userId]) ∧
      (uploadRecording rt fs req).launched = none ∧
      ∀ (q : List String) (c : List Nat),
        stat (uploadRecording rt fs req).fs q = some (.file c) ↔
          stat fs q = some (.file c) := by
  have hout : uploadRecording rt fs req =
      { fs := fs1,
        emitted := [.saveError "Base64 decoding failed: File data too small, likely corrupted"
          req.fileName req.userId],
        launched := none } := by
    rw [uploadRecording, uploadBody_valid rt fs fs1 req roomId fileName hroomId hroom huser
      hfileName hfile hdir, hremote, hdata]
    simp [saveAndConvert, hlen]
  rw [hout]
  exact ⟨rfl, fun _ => by simp [allEvents], rfl, ensureRoomDir_files hdir⟩

/-- The empty string as `fileData`, for a room that does not exist yet. -/
theorem small_payload_rejected_witness :
    (uploadRecording nodeRuntime freshTree
        { roomId := .str "r1", userId := .str "u1", fileData := .str "",
          fileName := .str "clip.aac", isRemote := .bool false }).emitted
      = [.saveError "Base64 decoding failed: File data too small, likely corrupted"
          (.str "clip.aac") (.str "u1")] :=
  (small_payload_rejected nodeRuntime freshTree
    (freshTree ++ [(["srv", "app", "recordings", "r1"], Entry.dir)])
    { roomId := .str "r1", userId := .str "u1", fileData := .str "",
      fileName := .str "clip.aac", isRemote := .bool false }
    "r1" "clip.aac" "" rfl (by decide) (by decide) rfl (by decide) (by decide) rfl
    (by decide) (by decide)).1

/-- C5 as stated fails: `/srv/app/recordings/a` is a regular file, and a
remote-flagged upload for room `a/b` with all fields present is answered with
`save-error`, not with `recording-saved`. -/
theorem remote_upload_counterexample :
    (JSVal.str "a/b").truthy = true ∧ (JSVal.str "u1").truthy = true ∧
      (JSVal.str "c.aac").truthy = true ∧ (JSVal.bool true).truthy = true ∧
      (uploadRecording nodeRuntime blockedTree
          { roomId := .str "a/b", userId := .str "u1", fileData := .undefined,
            fileName := .str "c.aac", isRemote := .bool true }).emitted
        = [.saveError "ENOTDIR: not a directory, mkdir '/srv/app/recordings/a/b'"
            (.str "c.aac") (.str "u1")] := by
  decide

/-- C5, amended: for an upload with the remote flag set and the required
fields present, whatever `fileData` is, when the directory step succeeds, the
handler writes no file (the tree has the same files with the same contents as
before), starts no conversion, and emits exactly one event: `recording-saved`
with the `fileName` and `userId` of the request and no `mp3FileName`. -/
theorem remote_upload_acknowledged (rt : Runtime) (fs fs1 : FS) (req : Request)
    (roomId fileName : String)
    (hroomId : req.roomId = .str roomId) (hroom : roomId ≠ "")
    (huser : req.userId.truthy = true)
    (hfileName : req.fileName = .str fileName) (hfile : fileName ≠ "")
    (hremote : req.isRemote.truthy = true)
    (hdir : ensureRoomDir fs (pathJoin (recordingsDir rt) roomId) = .ok fs1) :
    (uploadRecording rt fs req).emitted
        = [.recordingSaved req.fileName req.userId none] ∧
      (∀ error : Option String, allEvents (uploadRecording rt fs req) error
        = [.recordingSaved req.fileName req.userId none]) ∧
      (uploadRecording rt fs req).launched = none ∧
      ∀ (q : List String) (c : List Nat),
        stat (uploadRecording rt fs req).fs q = some (.file c) ↔
          stat fs q = some (.file c) := by
  have hout : uploadRecording rt fs req =
      { fs := fs1, emitted := [.recordingSaved req.fileName req.userId none],
        launched := none } := by
    rw [uploadRecording, uploadBody_valid rt fs fs1 req roomId fileName hroomId hroom huser
      hfileName hfile hdir, hremote, hfileName]
    simp
  rw [hout]
  exact ⟨rfl, fun _ => by simp [allEvents], rfl, ensureRoomDir_files hdir⟩

set_option maxRecDepth 100000 in
/-- A remote-flagged upload that carries a full payload all the same. -/
theorem remote_upload_acknowledged_witness :
    (uploadRecording nodeRuntime freshTree
        { roomId := .str "r1", userId := .str "u1", fileData := .str zeros200,
          fileName := .str "clip.aac", isRemote := .bool true }).emitted
      = [.recordingSaved (.str "clip.aac") (.str "u1") none] :=
  (remote_upload_acknowledged nodeRuntime freshTree
    (freshTree ++ [(["srv", "app", "recordings", "r1"], Entry.dir)])
    { roomId := .str "r1", userId := .str "u1", fileData := .str zeros200,
      fileName := .str "clip.aac", isRemote := .bool true }
    "r1" "clip.aac" rfl (by decide) (by decide) rfl (by decide) (by decide)
    (by decide)).1


/-! ## The derived file name -/

theorem occursIn_iff (pat s : List Char) :
    occursIn pat s = true ↔ ∃ pre post, s = pre ++ pat ++ post := by
  induction s with
  | nil =>
    simp only [occursIn, List.isEmpty_iff]
    constructor
    · rintro rfl
      exact ⟨[], [], rfl⟩
    · rintro ⟨pre, post, h⟩
      have := congrArg List.length h
      simp only [List.length_nil, List.length_append] at this
      exact List.length_eq_zero.mp (by omega)
  | cons c cs ih =>
    simp only [occursIn, Bool.or_eq_true, ih, List.isPrefixOf_iff_prefix]
    constructor
    · rintro (⟨post, h⟩ | ⟨pre, post, h⟩)
      · exact ⟨[], post, by simpa using h.symm⟩
      · exact ⟨c :: pre, post, by simp [h]⟩
    · rintro ⟨pre, post, h⟩
      cases pre with
      | nil => exact Or.inl ⟨post, by simpa using h.symm⟩
      | cons d pre =>
        simp only [List.cons_append, List.cons.injEq] at h
        exact Or.inr ⟨pre, post, h.2⟩

theorem replaceFirst_of_not_occurs (pat rep : List Char) :
    ∀ s : List Char, occursIn pat s = false → replaceFirst pat rep s = s := by
  intro s
  induction s with
  | nil =>
    intro h
    simp only [occursIn, List.isEmpty_eq_false] at h
    simp [replaceFirst, h]
  | cons c cs ih =>
    intro h
    simp only [occursIn, Bool.or_eq_false_iff] at h
    simp [replaceFirst, h.1, ih h.2]

theorem replaceFirst_aac_suffix :
    ∀ stem : List Char, occursIn ['.', 'a', 'a', 'c'] stem = false →
      replaceFirst ['.', 'a', 'a', 'c'] ['.', 'm', 'p', '3'] (stem ++ ['.', 'a', 'a', 'c'])
        = stem ++ ['.', 'm', 'p', '3'] := by
  intro stem
  induction stem with
  | nil => intro _; decide
  | cons c cs ih =>
    intro h
    simp only [occursIn, Bool.or_eq_false_iff] at h
    have hpre : List.isPrefixOf ['.', 'a', 'a', 'c'] (c :: (cs ++ ['.', 'a', 'a', 'c']))
        = false := by
      have h1 := h.1
      match cs, h1 with
      | [], _ => simp [List.isPrefixOf]
      | [_], _ => simp [List.isPrefixOf]
      | [_, _], _ => simp [List.isPrefixOf]
      | _ :: _ :: _ :: _, h1 => simpa [List.isPrefixOf] using h1
    rw [List.cons_append, replaceFirst, hpre, ih h.2]
    simp

theorem aac_data : ".aac".data = ['.', 'a', 'a', 'c'] := by decide

theorem mp3_data : ".mp3".data = ['.', 'm', 'p', '3'] := by decide

/-- C6 as stated fails on both sides: `a.aac.aac` ends in `.aac` and its
derived name is `a.mp3.aac`, not `a.aac.mp3`; `x.aac.bak` does not end in
`.aac` and its derived name is `x.mp3.bak`, not the name itself. -/
theorem derived_name_counterexample :
    mp3FileName ("a.aac" ++ ".aac") = "a.mp3.aac" ∧
      mp3FileName ("a.aac" ++ ".aac") ≠ "a.aac" ++ ".mp3" ∧
      mp3FileName "x.aac.bak" = "x.mp3.bak" ∧
      mp3FileName "x.aac.bak" ≠ "x.aac.bak" := by
  decide

/-- C6, amended: the derived name replaces `.aac` by `.mp3`: for a file name
`stem.aac` whose stem does not contain `.aac` it is `stem.mp3`, and for a file
name that does not contain `.aac` anywhere it is the file name itself. -/
theorem derived_name_first_occurrence :
    (∀ stem : String, containsAac stem = false →
      mp3FileName (stem ++ ".aac") = stem ++ ".mp3") ∧
    (∀ fileName : String, containsAac fileName = false →
      mp3FileName fileName = fileName) := by
  constructor
  · intro stem h
    unfold containsAac at h
    rw [aac_data] at h
    unfold mp3FileName
    rw [String.data_append, aac_data, mp3_data, replaceFirst_aac_suffix _ h]
    apply String.ext
    simp [mp3_data]
  · intro fileName h
    unfold containsAac at h
    unfold mp3FileName
    rw [replaceFirst_of_not_occurs _ _ _ h]

/-- The name of the scenario of the specification, and a name with another
extension. -/
theorem derived_name_first_occurrence_witness :
    mp3FileName ("clip" ++ ".aac") = "clip" ++ ".mp3" ∧
      mp3FileName "clip.wav" = "clip.wav" :=
  ⟨derived_name_first_occurrence.1 "clip" (by decide),
    derived_name_first_occurrence.2 "clip.wav" (by decide)⟩


/-! ## Paths of the conversion -/

theorem saveAndConvert_inv {rt : Runtime} {fs1 fs2 : FS} {roomDir filePath : Path}
    {fileName : String} {userId : JSVal} {data : String} {conv : Conversion}
    (h : saveAndConvert rt fs1 roomDir filePath fileName userId data = (fs2, .ok conv)) :
    conv.roomDir = roomDir ∧ conv.filePath = filePath ∧
      conv.mp3FilePath = pathJoin roomDir (mp3FileName fileName) := by
  unfold saveAndConvert at h
  simp only at h
  split at h
  · cases h
  · split at h
    · cases h
    · simp only [Prod.mk.injEq, Except.ok.injEq] at h
      obtain ⟨_, rfl⟩ := h
      exact ⟨rfl, rfl, rfl⟩

/-- What a started conversion closes over, read back from the request. -/
theorem launched_inv {rt : Runtime} {fs : FS} {req : Request} {conv : Conversion}
    (h : (uploadRecording rt fs req).launched = some conv) :
    ∃ roomId fileName : String,
      req.roomId = .str roomId ∧ req.fileName = .str fileName ∧
      conv.roomDir = pathJoin (recordingsDir rt) roomId ∧
      conv.filePath = pathJoin (pathJoin (recordingsDir rt) roomId) fileName ∧
      conv.mp3FilePath
        = pathJoin (pathJoin (recordingsDir rt) roomId) (mp3FileName fileName) := by
  obtain ⟨roomId, userId, fileData, fileName, isRemote⟩ := req
  unfold uploadRecording uploadBody at h
  simp only at h
  by_cases hv : (!roomId.truthy || !userId.truthy || !fileName.truthy) = true
  · rw [if_pos hv] at h
    cases h
  · rw [if_neg hv] at h
    cases roomId with
    | str r =>
      simp only [pathJoinVal] at h
      cases hd : ensureRoomDir fs (pathJoin (recordingsDir rt) r) with
      | error m =>
        rw [hd] at h
        cases h
      | ok fs0 =>
        rw [hd] at h
        simp only at h
        cases fileName with
        | str f =>
          simp only at h
          by_cases hr : isRemote.truthy = true
          · rw [if_pos hr] at h
            cases h
          · rw [if_neg hr] at h
            cases fileData with
            | str d =>
              simp only at h
              cases hsc : saveAndConvert rt fs0 (pathJoin (recordingsDir rt) r)
                (pathJoin (pathJoin (recordingsDir rt) r) f) f userId d with
              | mk fs2 res =>
                rw [hsc] at h
                cases res with
                | error m => cases h
                | ok c =>
                  simp only [Option.some.injEq] at h
                  subst h
                  exact ⟨r, f, rfl, rfl, saveAndConvert_inv hsc⟩
            | _ => cases h
        | _ => cases h
    | _ =>
      simp only [pathJoinVal] at h
      cases h

theorem splitSlashAux_no_slash :
    ∀ (cs cur : List Char), '/' ∉ cs → splitSlashAux cur cs = [cur.reverse ++ cs] := by
  intro cs
  induction cs with
  | nil => intro cur _; simp [splitSlashAux]
  | cons c cs ih =>
    intro cur h
    have hc : c ≠ '/' := fun hc => h (by simp [hc])
    have hcs : '/' ∉ cs := fun hcs => h (by simp [hcs])
    simp [splitSlashAux, hc, ih (c :: cur) hcs]

theorem splitSlash_no_slash (s : String) (h : '/' ∉ s.data) : splitSlash s = [s] := by
  simp [splitSlash, splitSlashAux_no_slash s.data [] h]

theorem isPlainName_iff (s : String) :
    isPlainName s = true ↔ s ≠ "" ∧ s ≠ "." ∧ s ≠ ".." ∧ '/' ∉ s.data := by
  simp [isPlainName, and_assoc]

theorem normStep_kept (acc : List String) (seg : String)
    (hacc : ∀ s ∈ acc, s ≠ "" ∧ s ≠ "." ∧ s ≠ "..") :
    ∀ s ∈ normStep acc seg, s ≠ "" ∧ s ≠ "." ∧ s ≠ ".." := by
  intro s hs
  unfold normStep at hs
  split at hs
  · exact hacc s hs
  · rename_i h1
    split at hs
    · exact hacc s (List.mem_of_mem_dropLast hs)
    · rename_i h2
      rcases List.mem_append.mp hs with h | h
      · exact hacc s h
      · simp only [List.mem_singleton] at h
        subst h
        exact ⟨fun h => h1 (Or.inl h), fun h => h1 (Or.inr h), h2⟩

theorem foldl_normStep_kept (l : List String) :
    ∀ acc : List String, (∀ s ∈ acc, s ≠ "" ∧ s ≠ "." ∧ s ≠ "..") →
      ∀ s ∈ l.foldl normStep acc, s ≠ "" ∧ s ≠ "." ∧ s ≠ ".." := by
  induction l with
  | nil => intro acc h; simpa using h
  | cons x l ih =>
    intro acc h
    simp only [List.foldl_cons]
    exact ih _ (normStep_kept acc x h)

theorem foldl_normStep_of_kept (l : List String)
    (hl : ∀ s ∈ l, s ≠ "" ∧ s ≠ "." ∧ s ≠ "..") :
    ∀ acc : List String, l.foldl normStep acc = acc ++ l := by
  induction l with
  | nil => intro acc; simp
  | cons x l ih =>
    intro acc
    have hx := hl x (by simp)
    have hstep : normStep acc x = acc ++ [x] := by
      simp [normStep, hx.1, hx.2.1, hx.2.2]
    simp only [List.foldl_cons, hstep]
    rw [ih (fun s hs => hl s (by simp [hs]))]
    simp

/-- What `path.join` returns has only ordinary segments. -/
theorem pathJoin_segs_kept (base : Path) (arg : String)
    (hbase : ∀ s ∈ base.segs, s ≠ "" ∧ s ≠ "." ∧ s ≠ "..") :
    ∀ s ∈ (pathJoin base arg).segs, s ≠ "" ∧ s ≠ "." ∧ s ≠ ".." := by
  unfold pathJoin
  split
  · exact hbase
  · exact foldl_normStep_kept _ [] (by simp)

/-- Joining one ordinary name to a normalised directory appends it. -/
theorem pathJoin_plain (base : Path) (name : String)
    (hbase : ∀ s ∈ base.segs, s ≠ "" ∧ s ≠ "." ∧ s ≠ "..")
    (hname : isPlainName name = true) :
    (pathJoin base name).segs = base.segs ++ [name] := by
  obtain ⟨h1, h2, h3, h4⟩ := (isPlainName_iff name).1 hname
  unfold pathJoin
  rw [if_neg h1]
  simp only [normalizeSegs, splitSlash_no_slash name h4]
  rw [foldl_normStep_of_kept _ _ []]
  · simp
  · intro s hs
    rcases List.mem_append.mp hs with h | h
    · exact hbase s h
    · simp only [List.mem_singleton] at h
      subst h
      exact ⟨h1, h2, h3⟩

theorem roomDir_segs_kept (rt : Runtime) (roomId : String) :
    ∀ s ∈ (pathJoin (recordingsDir rt) roomId).segs, s ≠ "" ∧ s ≠ "." ∧ s ≠ ".." := by
  apply pathJoin_segs_kept
  unfold recordingsDir pathJoin
  rw [if_neg (by decide)]
  exact foldl_normStep_kept _ [] (by simp)

theorem directlyIn_of_plain (rt : Runtime) (roomId name : String)
    (hname : isPlainName name = true) :
    (pathJoin (pathJoin (recordingsDir rt) roomId) name).directlyIn
      (pathJoin (recordingsDir rt) roomId) := by
  unfold Path.directlyIn
  rw [pathJoin_plain _ _ (roomDir_segs_kept rt roomId) hname]
  simp

theorem replaceFirst_cases (pat rep : List Char) :
    ∀ s : List Char, replaceFirst pat rep s = s ∨
      ∃ pre post, s = pre ++ pat ++ post ∧ replaceFirst pat rep s = pre ++ rep ++ post := by
  intro s
  induction s with
  | nil =>
    by_cases hp : pat = []
    · right
      exact ⟨[], [], by simp [hp], by simp [replaceFirst, hp]⟩
    · left
      simp [replaceFirst, hp]
  | cons c cs ih =>
    by_cases hpre : pat.isPrefixOf (c :: cs) = true
    · right
      obtain ⟨post, hpost⟩ := List.isPrefixOf_iff_prefix.mp hpre
      refine ⟨[], post, by simpa using hpost.symm, ?_⟩
      rw [replaceFirst, if_pos hpre, ← hpost]
      simp
    · rcases ih with h | ⟨pre, post, h1, h2⟩
      · left
        rw [replaceFirst, if_neg hpre, h]
      · right
        refine ⟨c :: pre, post, by simp [h1], ?_⟩
        rw [replaceFirst, if_neg hpre, h2]
        simp

theorem mp3FileName_plain (name : String) (hname : isPlainName name = true) :
    isPlainName (mp3FileName name) = true := by
  obtain ⟨h1, h2, h3, h4⟩ := (isPlainName_iff name).1 hname
  rcases replaceFirst_cases ".aac".data ".mp3".data name.data with h | ⟨pre, post, e1, e2⟩
  · have : mp3FileName name = name := by
      unfold mp3FileName
      rw [h]
    rw [this]
    exact hname
  · rw [isPlainName_iff]
    have hdata : (mp3FileName name).data = pre ++ ['.', 'm', 'p', '3'] ++ post := by
      unfold mp3FileName
      rw [e2, mp3_data]
    have hlen : 4 ≤ (mp3FileName name).data.length := by
      rw [hdata]
      simp
      omega
    refine ⟨?_, ?_, ?_, ?_⟩
    · intro h
      rw [h] at hlen
      revert hlen
      decide
    · intro h
      rw [h] at hlen
      revert hlen
      decide
    · intro h
      rw [h] at hlen
      revert hlen
      decide
    · rw [hdata]
      rw [e1, aac_data] at h4
      simp only [List.mem_append, not_or] at h4 ⊢
      exact ⟨⟨h4.1.1, by decide⟩, h4.2⟩

set_option maxRecDepth 100000 in
/-- C7 as stated fails: the upload `escapingUpload` for room `r1` with the file
name `../x.aac` reaches the conversion step, and both the raw path and the
output path given to the transcoder lie in `/srv/app/recordings`, not in the
room directory `/srv/app/recordings/r1`. -/
theorem conversion_paths_counterexample :
    (uploadRecording nodeRuntime freshTree escapingUpload).launched.map
        (fun conv => (conv.roomDir.render, conv.filePath.render, conv.mp3FilePath.render))
      = some ("/srv/app/recordings/r1", "/srv/app/recordings/x.aac",
          "/srv/app/recordings/x.mp3") ∧
    (uploadRecording nodeRuntime freshTree escapingUpload).launched.map
        (fun conv => (decide (conv.filePath.directlyIn conv.roomDir),
          decide (conv.mp3FilePath.directlyIn conv.roomDir)))
      = some (false, false) := by
  decide

/-- C7, amended: for every upload that reaches the conversion step and whose
file name is one ordinary path segment (not empty, not `.` or `..`, no `/`),
whatever the room id is, the raw path and the output path given to the
transcoder are both entries of the room directory
`join(recordingsDir, roomId)` itself. -/
theorem conversion_paths_in_room (rt : Runtime) (fs : FS) (req : Request)
    (conv : Conversion) (roomId fileName : String)
    (hroomId : req.roomId = .str roomId)
    (hfileName : req.fileName = .str fileName)
    (hplain : isPlainName fileName = true)
    (hconv : (uploadRecording rt fs req).launched = some conv) :
    conv.roomDir = pathJoin (recordingsDir rt) roomId ∧
      conv.filePath = pathJoin conv.roomDir fileName ∧
      conv.mp3FilePath = pathJoin conv.roomDir (mp3FileName fileName) ∧
      conv.filePath.directlyIn conv.roomDir ∧
      conv.mp3FilePath.directlyIn conv.roomDir := by
  obtain ⟨r, f, hr, hf, h1, h2, h3⟩ := launched_inv hconv
  rw [hroomId] at hr
  rw [hfileName] at hf
  cases hr
  cases hf
  rw [h1, h2, h3]
  exact ⟨rfl, rfl, rfl, directlyIn_of_plain rt roomId fileName hplain,
    directlyIn_of_plain rt roomId _ (mp3FileName_plain fileName hplain)⟩

set_option maxRecDepth 100000 in
/-- The scenario of the specification: `/srv/app/recordings/r1/clip.aac` and
`/srv/app/recordings/r1/clip.mp3` are entries of `/srv/app/recordings/r1`. -/
theorem conversion_paths_in_room_witness :
    (pathJoin (pathJoin (recordingsDir nodeRuntime) "r1") "clip.aac").directlyIn
        (pathJoin (recordingsDir nodeRuntime) "r1") ∧
      (pathJoin (pathJoin (recordingsDir nodeRuntime) "r1") (mp3FileName "clip.aac")).directlyIn
        (pathJoin (recordingsDir nodeRuntime) "r1") :=
  have h := conversion_paths_in_room nodeRuntime freshTree clipUpload
    { roomDir := pathJoin (recordingsDir nodeRuntime) "r1",
      filePath := pathJoin (pathJoin (recordingsDir nodeRuntime) "r1") "clip.aac",
      mp3FilePath := pathJoin (pathJoin (recordingsDir nodeRuntime) "r1") (mp3FileName "clip.aac"),
      command := ffmpegCommand (pathJoin (pathJoin (recordingsDir nodeRuntime) "r1") "clip.aac")
        (pathJoin (pathJoin (recordingsDir nodeRuntime) "r1") (mp3FileName "clip.aac")),
      fileName := .str "clip.aac", userId := .str "u1", mp3FileName := mp3FileName "clip.aac" }
    "r1" "clip.aac" rfl rfl (by decide) (by decide)
  ⟨h.2.2.2.1, h.2.2.2.2⟩


/-! ## Remote-flagged uploads and the tree -/

/-- With the remote flag set, the tree the handler leaves is the one it found
or the one the directory step made of it. -/
theorem remote_fs {rt : Runtime} {fs : FS} {req : Request}
    (hremote : req.isRemote.truthy = true) :
    (uploadRecording rt fs req).fs = fs ∨
      ∃ roomId : String, req.roomId = .str roomId ∧
        ensureRoomDir fs (pathJoin (recordingsDir rt) roomId)
          = .ok (uploadRecording rt fs req).fs := by
  obtain ⟨roomId, userId, fileData, fileName, isRemote⟩ := req
  simp only at hremote
  unfold uploadRecording uploadBody
  simp only
  by_cases hv : (!roomId.truthy || !userId.truthy || !fileName.truthy) = true
  · rw [if_pos hv]
    exact Or.inl rfl
  · rw [if_neg hv]
    cases roomId with
    | str r =>
      simp only [pathJoinVal]
      cases hd : ensureRoomDir fs (pathJoin (recordingsDir rt) r) with
      | error m => exact Or.inl rfl
      | ok fs0 =>
        right
        refine ⟨r, rfl, ?_⟩
        cases fileName <;> simp only [if_pos hremote] <;> exact hd
    | _ => exact Or.inl rfl

/-- C8 as stated fails: on the fresh tree a remote-flagged upload for room
`r1` with all fields present leaves a tree that is not the one it found: the
directory `/srv/app/recordings/r1` has been created. -/
theorem remote_upload_tree_counterexample :
    remoteUpload.roomId.truthy = true ∧ remoteUpload.userId.truthy = true ∧
      remoteUpload.fileName.truthy = true ∧ remoteUpload.isRemote.truthy = true ∧
      (uploadRecording nodeRuntime freshTree remoteUpload).fs
        = freshTree ++ [(["srv", "app", "recordings", "r1"], Entry.dir)] ∧
      (uploadRecording nodeRuntime freshTree remoteUpload).fs ≠ freshTree := by
  decide

/-- C8, amended: a remote-flagged upload changes no file, but the handler
ensures the room directory before it looks at the flag. After the handler
every path holds what it held before; whatever is new is a directory on the
path of the room directory `join(recordingsDir, roomId)`, that is the room
directory or one of its ancestors that was missing; and when the room
directory existed already the tree is identical to the one before. -/
theorem remote_upload_tree (rt : Runtime) (fs : FS) (req : Request)
    (hremote : req.isRemote.truthy = true) :
    (∀ (q : List String) (e : Entry),
        stat fs q = some e → stat (uploadRecording rt fs req).fs q = some e) ∧
      (∀ (q : List String) (e : Entry),
        stat (uploadRecording rt fs req).fs q = some e →
          stat fs q = some e ∨
            (stat fs q = none ∧ e = .dir ∧
              ∃ roomId : String, req.roomId = .str roomId ∧
                q <+: (pathJoin (recordingsDir rt) roomId).segs)) ∧
      (∀ roomId : String, req.roomId = .str roomId →
        existsSync fs (pathJoin (recordingsDir rt) roomId) = true →
          (uploadRecording rt fs req).fs = fs) := by
  rcases @remote_fs rt fs req hremote with h | ⟨r, hr, hd⟩
  · rw [h]
    exact ⟨fun _ _ h => h, fun _ _ h => Or.inl h, fun _ _ _ => rfl⟩
  · obtain ⟨h1, h2⟩ := ensureRoomDir_adds hd
    refine ⟨h1, fun q e hq => ?_, ?_⟩
    · rcases h2 q e hq with h3 | ⟨h3, h4, h5⟩
      · exact Or.inl h3
      · exact Or.inr ⟨h3, h4, r, hr, h5⟩
    · intro roomId hroomId hex
      rw [hr] at hroomId
      cases hroomId
      rw [ensureRoomDir_of_exists hex] at hd
      injection hd with hd
      exact hd.symm

/-- On the fresh tree the remote-flagged upload for room `r1` leaves the
directory `/srv/app/recordings/r1`, which was not there and is the room
directory itself; on the tree where the room exists already it leaves the
tree as it was. -/
theorem remote_upload_tree_witness :
    (stat freshTree ["srv", "app", "recordings", "r1"] = some Entry.dir ∨
        (stat freshTree ["srv", "app", "recordings", "r1"] = none ∧ Entry.dir = Entry.dir ∧
          ∃ roomId : String, remoteUpload.roomId = .str roomId ∧
            ["srv", "app", "recordings", "r1"]
              <+: (pathJoin (recordingsDir nodeRuntime) roomId).segs)) ∧
      stat freshTree ["srv", "app", "recordings", "r1"] = none ∧
      (uploadRecording nodeRuntime emptyRoomTree remoteUpload).fs = emptyRoomTree :=
  ⟨(remote_upload_tree nodeRuntime freshTree remoteUpload (by decide)).2.1
      ["srv", "app", "recordings", "r1"] Entry.dir (by decide),
    by decide,
    (remote_upload_tree nodeRuntime emptyRoomTree remoteUpload (by decide)).2.2 "r1" rfl
      (by decide)⟩

/-! ## Failures of the write -/

/-- Whatever `writeFileSync` throws is caught by the inner `catch` first: the
event carries its message behind the decoding prefix. -/
theorem write_failure_wrapped (rt : Runtime) (fs fs1 : FS) (req : Request)
    (roomId fileName data m : String)
    (hroomId : req.roomId = .str roomId) (hroom : roomId ≠ "")
    (huser : req.userId.truthy = true)
    (hfileName : req.fileName = .str fileName) (hfile : fileName ≠ "")
    (hremote : req.isRemote.truthy = false)
    (hdata : req.fileData = .str data)
    (hlen : 100 ≤ (rt.bufferFromBase64 data).length)
    (hdir : ensureRoomDir fs (pathJoin (recordingsDir rt) roomId) = .ok fs1)
    (hwrite : writeFileSync fs1 (pathJoin (pathJoin (recordingsDir rt) roomId) fileName)
      (rt.bufferFromBase64 data) = .error m) :
    uploadRecording rt fs req =
      { fs := fs1,
        emitted := [.saveError ("Base64 decoding failed: " ++ m) req.fileName req.userId],
        launched := none } := by
  rw [uploadRecording, uploadBody_valid rt fs fs1 req roomId fileName hroomId hroom huser
    hfileName hfile hdir, hremote, hdata]
  simp [saveAndConvert, Nat.not_lt.mpr hlen, hwrite]

set_option maxRecDepth 100000 in
/-- C9 at a failing input: on the fresh tree the upload `nestedNameUpload`
(room `r1`, file name `sub/clip.aac`, 100 zero bytes) gets through validation
and decoding, and the write fails with `ENOENT: no such file or directory,
open '/srv/app/recordings/r1/sub/clip.aac'`. The handler emits one
`save-error` and starts no conversion, but the error field is that message
behind `Base64 decoding failed: `, not the message itself. -/
theorem write_failure_reported_as_decoding :
    (nodeRuntime.bufferFromBase64 zeros100).length = 100 ∧
      writeFileSync emptyRoomTree
          (pathJoin (pathJoin (recordingsDir nodeRuntime) "r1") "sub/clip.aac")
          (nodeRuntime.bufferFromBase64 zeros100)
        = .error ("ENOENT: no such file or directory, open " ++
            "'/srv/app/recordings/r1/sub/clip.aac'") ∧
      uploadRecording nodeRuntime freshTree nestedNameUpload =
        { fs := emptyRoomTree,
          emitted := [.saveError
            ("Base64 decoding failed: ENOENT: no such file or directory, open " ++
              "'/srv/app/recordings/r1/sub/clip.aac'")
            (.str "sub/clip.aac") (.str "u1")],
          launched := none } := by
  decide


/-! ## Listing a room -/

theorem charsLe_total : ∀ a b : List Char, charsLe a b = true ∨ charsLe b a = true := by
  intro a
  induction a with
  | nil => intro b; exact Or.inl (by simp [charsLe])
  | cons x xs ih =>
    intro b
    cases b with
    | nil => exact Or.inr (by simp [charsLe])
    | cons y ys =>
      unfold charsLe
      by_cases h1 : x.toNat < y.toNat
      · simp [h1]
      · by_cases h2 : y.toNat < x.toNat
        · simp [h2]
        · simp only [h1, h2, if_false]
          exact ih ys

theorem charsLe_trans : ∀ a b c : List Char,
    charsLe a b = true → charsLe b c = true → charsLe a c = true := by
  intro a
  induction a with
  | nil => intro b c _ _; simp [charsLe]
  | cons x xs ih =>
    intro b c hab hbc
    cases b with
    | nil => simp [charsLe] at hab
    | cons y ys =>
      cases c with
      | nil => simp [charsLe] at hbc
      | cons z zs =>
        unfold charsLe at hab hbc ⊢
        by_cases h1 : x.toNat < y.toNat
        · by_cases h2 : y.toNat < z.toNat
          · have : x.toNat < z.toNat := by omega
            simp [this]
          · by_cases h3 : z.toNat < y.toNat
            · simp [h2, h3] at hbc
            · have : x.toNat < z.toNat := by omega
              simp [this]
        · by_cases h1' : y.toNat < x.toNat
          · simp [h1, h1'] at hab
          · simp only [h1, h1', if_false] at hab
            by_cases h2 : y.toNat < z.toNat
            · have : x.toNat < z.toNat := by omega
              simp [this]
            · by_cases h3 : z.toNat < y.toNat
              · simp [h2, h3] at hbc
              · simp only [h2, h3, if_false] at hbc
                have e1 : ¬ x.toNat < z.toNat := by omega
                have e2 : ¬ z.toNat < x.toNat := by omega
                simp only [e1, e2, if_false]
                exact ih ys zs hab hbc

theorem childName_eq_some (d q : List String) (n : String) :
    childName d q = some n ↔ q = d ++ [n] := by
  unfold childName
  constructor
  · intro h
    split at h
    · rename_i hq
      rw [← hq.2]
      exact (List.dropLast_append_getLast? n h).symm
    · cases h
  · rintro rfl
    simp

theorem lookup_some_iff_mem (fs : FS) (p : List String) :
    (∃ e, lookup fs p = some e) ↔ p ∈ fs.map Prod.fst := by
  induction fs with
  | nil => simp [lookup]
  | cons x rest ih =>
    obtain ⟨q, y⟩ := x
    have hmap : List.map Prod.fst ((q, y) :: rest) = q :: List.map Prod.fst rest := rfl
    rw [hmap, List.mem_cons, ← ih]
    by_cases h : q = p
    · subst h
      exact ⟨fun _ => Or.inl rfl, fun _ => ⟨y, by simp [lookup]⟩⟩
    · have hl : lookup ((q, y) :: rest) p = lookup rest p := by simp [lookup, h]
      rw [hl]
      exact ⟨fun hx => Or.inr hx, fun hx => hx.resolve_left (fun e => h e.symm)⟩

theorem mem_keys_setEntry (fs : FS) (p k : List String) (e : Entry) :
    k ∈ (setEntry fs p e).map Prod.fst ↔ k ∈ fs.map Prod.fst ∨ k = p := by
  rw [← lookup_some_iff_mem, ← lookup_some_iff_mem]
  by_cases h : k = p
  · subst h
    simp [lookup_setEntry_same]
  · rw [lookup_setEntry_ne _ _ _ _ h]
    simp [h]

/-- Storing an entry keeps every path stored once. -/
theorem setEntry_nodup (fs : FS) (p : List String) (e : Entry)
    (h : (fs.map Prod.fst).Nodup) : ((setEntry fs p e).map Prod.fst).Nodup := by
  induction fs with
  | nil => simp [setEntry]
  | cons x rest ih =>
    obtain ⟨q, y⟩ := x
    have hmap : List.map Prod.fst ((q, y) :: rest) = q :: List.map Prod.fst rest := rfl
    rw [hmap, List.nodup_cons] at h
    by_cases hq : q = p
    · subst hq
      have : setEntry ((q, y) :: rest) q e = (q, e) :: rest := by simp [setEntry]
      rw [this]
      exact List.nodup_cons.mpr h
    · have : setEntry ((q, y) :: rest) p e = (q, y) :: setEntry rest p e := by
        simp [setEntry, hq]
      rw [this]
      have hmap2 : List.map Prod.fst ((q, y) :: setEntry rest p e)
          = q :: List.map Prod.fst (setEntry rest p e) := rfl
      rw [hmap2, List.nodup_cons]
      refine ⟨?_, ih h.2⟩
      rw [mem_keys_setEntry]
      rintro (hm | hm)
      · exact h.1 hm
      · exact hq hm

theorem mkdirGo_nodup (shown : String) (slash : Bool) :
    ∀ (rest : List String) (fs fs1 : FS) (pre : List String),
      mkdirGo shown slash fs pre rest = .ok fs1 →
      (fs.map Prod.fst).Nodup → (fs1.map Prod.fst).Nodup := by
  intro rest
  induction rest with
  | nil =>
    intro fs fs1 pre h hk
    simp only [mkdirGo, Except.ok.injEq] at h
    subst h
    exact hk
  | cons s rest ih =>
    intro fs fs1 pre h hk
    unfold mkdirGo at h
    split at h
    · exact ih fs fs1 _ h hk
    · split at h <;> cases h
    · exact ih _ fs1 _ h (setEntry_nodup fs _ _ hk)

theorem ensureRoomDir_nodup {fs fs1 : FS} {roomDir : Path}
    (h : ensureRoomDir fs roomDir = .ok fs1) (hk : (fs.map Prod.fst).Nodup) :
    (fs1.map Prod.fst).Nodup := by
  unfold ensureRoomDir at h
  split at h
  · cases h
    exact hk
  · unfold mkdirSync at h
    split at h
    · cases h
    · exact mkdirGo_nodup _ _ _ _ _ _ h hk

/-- The handler keeps the tree one in which every path is stored once. -/
theorem uploadRecording_nodup (rt : Runtime) (fs : FS) (req : Request)
    (hk : (fs.map Prod.fst).Nodup) :
    ((uploadRecording rt fs req).fs.map Prod.fst).Nodup := by
  obtain ⟨roomId, userId, fileData, fileName, isRemote⟩ := req
  unfold uploadRecording uploadBody
  simp only
  by_cases hv : (!roomId.truthy || !userId.truthy || !fileName.truthy) = true
  · rw [if_pos hv]
    exact hk
  · rw [if_neg hv]
    cases roomId with
    | str r =>
      simp only [pathJoinVal]
      cases hd : ensureRoomDir fs (pathJoin (recordingsDir rt) r) with
      | error m => exact hk
      | ok fs0 =>
        have hk0 := ensureRoomDir_nodup hd hk
        cases fileName with
        | str f =>
          simp only
          by_cases hr : isRemote.truthy = true
          · rw [if_pos hr]
            exact hk0
          · rw [if_neg hr]
            cases fileData with
            | str d =>
              by_cases hlen : (rt.bufferFromBase64 d).length < 100
              · simp only [saveAndConvert, hlen, if_true]
                exact hk0
              · cases hw : writeFileSync fs0
                    (pathJoin (pathJoin (recordingsDir rt) r) f) (rt.bufferFromBase64 d) with
                | error m =>
                  simp only [saveAndConvert, hlen, if_false, hw]
                  exact hk0
                | ok fs2 =>
                  simp only [saveAndConvert, hlen, if_false, hw]
                  obtain ⟨_, rfl⟩ := writeFileSync_ok hw
                  exact setEntry_nodup fs0 _ _ hk0
            | _ => exact hk0
        | _ => exact hk0
    | _ => exact hk

theorem entryNames_eq (fs : FS) (d : List String) :
    entryNames fs d = (fs.map Prod.fst).filterMap (childName d) := by
  simp [entryNames, List.filterMap_map, Function.comp_def]

theorem mem_children (fs : FS) (d : List String) (n : String) :
    n ∈ children fs d ↔ ∃ e, stat fs (d ++ [n]) = some e := by
  have hne : d ++ [n] ≠ [] := by simp
  rw [children, (List.perm_insertionSort nameLe _).mem_iff, entryNames_eq,
    List.mem_filterMap]
  simp only [stat, hne, if_false, lookup_some_iff_mem, childName_eq_some]
  constructor
  · rintro ⟨q, hq, rfl⟩
    exact hq
  · intro h
    exact ⟨_, h, rfl⟩

theorem nodup_children (fs : FS) (d : List String)
    (hkeys : (fs.map Prod.fst).Nodup) : (children fs d).Nodup := by
  rw [children, (List.perm_insertionSort nameLe _).nodup_iff, entryNames_eq]
  refine List.Nodup.filterMap ?_ hkeys
  intro a b n ha hb
  rw [Option.mem_def, childName_eq_some] at ha hb
  rw [ha, hb]

theorem sorted_children (fs : FS) (d : List String) :
    (children fs d).Sorted nameLe :=
  have : IsTotal String nameLe := ⟨fun a b => charsLe_total a.data b.data⟩
  have : IsTrans String nameLe := ⟨fun a b c => charsLe_trans a.data b.data c.data⟩
  List.sorted_insertionSort nameLe _

theorem checkDirs_snoc (fs : FS) :
    ∀ (l pre : List String) (s : String),
      checkDirs fs pre (l ++ [s]) = none ↔
        checkDirs fs pre l = none ∧ stat fs (pre ++ l ++ [s]) = some .dir := by
  intro l
  induction l with
  | nil =>
    intro pre s
    simp only [List.nil_append, List.append_nil, checkDirs, true_and]
    cases h : stat fs (pre ++ [s]) with
    | none => simp
    | some e => cases e <;> simp [checkDirs]
  | cons x xs ih =>
    intro pre s
    have happ : pre ++ x :: xs ++ [s] = pre ++ [x] ++ xs ++ [s] := by simp
    simp only [List.cons_append, checkDirs]
    cases h : stat fs (pre ++ [x]) with
    | none => simp
    | some e =>
      cases e with
      | file c => simp
      | dir =>
        simp only
        rw [happ]
        exact ih (pre ++ [x]) s

theorem existsSync_eq_statPath (fs : FS) (p : Path) :
    existsSync fs p = (statPath fs p).isSome := by
  unfold existsSync statPath
  cases hasNul p with
  | true => rfl
  | false =>
    simp only [Bool.false_eq_true, if_false]
    cases checkDirs fs [] p.segs.dropLast with
    | some code => rfl
    | none =>
      simp only
      cases stat fs p.segs with
      | none => rfl
      | some e =>
        cases e with
        | dir => rfl
        | file c => cases p.trailingSlash <;> rfl

theorem statPath_of_roomDirExists {fs : FS} {p : Path}
    (h : roomDirExists fs p = true) : statPath fs p = some .dir := by
  simp only [roomDirExists, Bool.and_eq_true, beq_iff_eq] at h
  obtain ⟨hex, hdir⟩ := h
  unfold existsSync at hex
  unfold statPath
  split at hex
  · cases hex
  · rename_i hnul
    rw [if_neg hnul]
    split at hex
    · cases hex
    · rw [hdir]

theorem hasNul_snoc (l : List String) (s : String) (t t' : Bool) :
    hasNul { segs := l ++ [s], trailingSlash := t } =
      (hasNul { segs := l, trailingSlash := t' } || s.data.contains (Char.ofNat 0)) := by
  simp [hasNul]

/-- What `fs.stat` finds below a path that is not an existing directory:
nothing. -/
theorem statPath_child_none (fs : FS) (l : List String) (s : String) (t : Bool)
    (hl : l ≠ [])
    (h : existsSync fs { segs := l, trailingSlash := false } = false) :
    statPath fs { segs := l ++ [s], trailingSlash := t } = none := by
  unfold statPath
  split
  · rfl
  · rename_i hnul
    rw [hasNul_snoc l s t false] at hnul
    simp only [Bool.or_eq_true, not_or, Bool.not_eq_true] at hnul
    have hcheck : checkDirs fs [] l ≠ none := by
      intro hc
      rw [← List.dropLast_append_getLast hl, checkDirs_snoc] at hc
      simp only [List.nil_append, List.dropLast_append_getLast hl] at hc
      simp [existsSync, hnul.1, hc.1, hc.2] at h
    simp only [List.dropLast_concat]
    cases hc : checkDirs fs [] l with
    | none => exact absurd hc hcheck
    | some code => rfl

theorem isRoomSegment_plain {s : String} (h : isRoomSegment s = true) :
    isPlainName s = true := by
  simp only [isRoomSegment, Bool.and_eq_true] at h
  exact h.1.1.1

theorem endsWithSlash_of_no_slash (s : String) (h : '/' ∉ s.data) :
    endsWithSlash s = false := by
  unfold endsWithSlash
  simp only [decide_eq_false_iff_not]
  intro hl
  exact h (List.mem_of_getLast?_eq_some hl)

/-- Joining one ordinary name to a normalised directory: the whole path. -/
theorem pathJoin_plain_eq (base : Path) (name : String)
    (hbase : ∀ s ∈ base.segs, s ≠ "" ∧ s ≠ "." ∧ s ≠ "..")
    (hname : isPlainName name = true) :
    pathJoin base name = { segs := base.segs ++ [name], trailingSlash := false } := by
  have hsegs := pathJoin_plain base name hbase hname
  obtain ⟨h1, _, _, h4⟩ := (isPlainName_iff name).1 hname
  have ht : (pathJoin base name).trailingSlash = false := by
    unfold pathJoin
    rw [if_neg h1]
    simp [endsWithSlash_of_no_slash name h4]
  cases hp : pathJoin base name with
  | mk segs t =>
    rw [hp] at hsegs ht
    simp only at hsegs ht
    rw [hsegs, ht]

theorem recordingsDir_segs_kept (rt : Runtime) :
    ∀ s ∈ (recordingsDir rt).segs, s ≠ "" ∧ s ≠ "." ∧ s ≠ ".." := by
  unfold recordingsDir pathJoin
  rw [if_neg (by decide)]
  exact foldl_normStep_kept _ [] (by simp)

theorem readdirSync_of_dir {fs : FS} {p : Path}
    (hex : existsSync fs p = true) (hdir : stat fs p.segs = some .dir) :
    readdirSync fs p = .ok (children fs p.segs) := by
  unfold existsSync at hex
  unfold readdirSync
  split at hex
  · cases hex
  · rename_i hnul
    rw [if_neg hnul]
    split at hex
    · cases hex
    · rw [hdir]

theorem listRecordings_of_dir {rt : Runtime} {fs : FS} {roomId : String}
    (h : roomDirExists fs (pathJoin (recordingsDir rt) roomId) = true) :
    listRecordings rt fs roomId
      = .json ((children fs (pathJoin (recordingsDir rt) roomId).segs).map
          (fileInfo roomId)) := by
  simp only [roomDirExists, Bool.and_eq_true, beq_iff_eq] at h
  simp only [listRecordings, h.1, readdirSync_of_dir h.1 h.2]
  simp

/-- What the static middleware does with the request, by what `fs.stat`
finds at the room path and at its `index.html`. -/
theorem serveStatic_eq (rt : Runtime) (fs : FS) (url : RoomUrl) :
    serveStatic rt fs url =
      if url.trailingSlash then
        match statPath fs
          { segs := (pathJoin (recordingsDir rt) url.name).segs ++ ["index.html"],
            trailingSlash := false } with
        | some (.file content) => some (.file200 content)
        | _ => none
      else
        match statPath fs (pathJoin (recordingsDir rt) url.name) with
        | some (.file content) => some (.file200 content)
        | some .dir => some .movedPermanently
        | none => none := by
  have hI : pathJoin (pathJoin (recordingsDir rt) url.name) "index.html" =
      { segs := (pathJoin (recordingsDir rt) url.name).segs ++ ["index.html"],
        trailingSlash := false } :=
    pathJoin_plain_eq _ _ (roomDir_segs_kept rt url.name) (by decide)
  simp only [serveStatic, hI]

/-- C10 as stated fails. The room `r1` of `nestedTree` holds the subdirectory
`sub` and the regular file `clip.aac`, so its directory exists. The request
`GET /recordings/r1` is answered by `express.static` with `301`, not with
`files`; the request `GET /recordings/r1/` reaches the route handler, whose
list has an entry for `sub` too, so it is not the list of the regular files.
And in `blockedTree` the path of room `a` is a regular file: no room
directory exists, yet `GET /recordings/a` is answered with the bytes of the
file and `GET /recordings/a/` with `500`, not with the 404. -/
theorem listing_counterexample :
    roomDirExists nestedTree (pathJoin (recordingsDir nodeRuntime) "r1") = true ∧
      regularFileNames nestedTree (pathJoin (recordingsDir nodeRuntime) "r1").segs
        = ["clip.aac"] ∧
      getRecordings nodeRuntime nestedTree ⟨"r1", false, by decide⟩ = .movedPermanently ∧
      getRecordings nodeRuntime nestedTree ⟨"r1", true, by decide⟩
        = .json200 [{ fileName := "clip.aac", url := "/recordings/r1/clip.aac" },
            { fileName := "sub", url := "/recordings/r1/sub" }] ∧
      getRecordings nodeRuntime nestedTree ⟨"r1", true, by decide⟩
        ≠ .json200 ((regularFileNames nestedTree
            (pathJoin (recordingsDir nodeRuntime) "r1").segs).map (fileInfo "r1")) ∧
      listRecordings nodeRuntime nestedTree "r1"
        ≠ .json ((regularFileNames nestedTree
            (pathJoin (recordingsDir nodeRuntime) "r1").segs).map (fileInfo "r1")) ∧
      roomDirExists blockedTree (pathJoin (recordingsDir nodeRuntime) "a") = false ∧
      getRecordings nodeRuntime blockedTree ⟨"a", false, by decide⟩
        = .file200 (List.replicate 100 0) ∧
      getRecordings nodeRuntime blockedTree ⟨"a", true, by decide⟩
        = .error500 "ENOTDIR: not a directory, scandir '/srv/app/recordings/a'" := by
  decide

/-- C10, amended: for `GET /recordings/<roomId>` with a room id that is one
ordinary path segment. If `existsSync` finds nothing at the room path, the
answer is the 404 with `Room not found`, with or without a trailing slash. If
the room path is a directory, the request without a trailing slash is
answered by `express.static` with `301` to the same URL with `/` appended,
and the request with the trailing slash, when the directory has no regular
file `index.html`, is answered with `files`: exactly one element per entry of
the room directory, regular files and subdirectories alike, sorted by name
as `readdirSync` returns them, each `{fileName, url}` with
`url = '/recordings/' + roomId + '/' + fileName`; so a room directory without
entries lists as the empty array, not as a 404. -/
theorem listing_of_room (rt : Runtime) (fs : FS) (url : RoomUrl) :
    (existsSync fs (pathJoin (recordingsDir rt) url.name) = false →
        getRecordings rt fs url = .json404 "Room not found") ∧
      (roomDirExists fs (pathJoin (recordingsDir rt) url.name) = true →
        url.trailingSlash = false →
        getRecordings rt fs url = .movedPermanently) ∧
      (roomDirExists fs (pathJoin (recordingsDir rt) url.name) = true →
        url.trailingSlash = true →
        isRegularFile fs ((pathJoin (recordingsDir rt) url.name).segs ++ ["index.html"])
          = false →
        ∃ names : List String,
          getRecordings rt fs url
            = .json200 (names.map (fun file =>
                { fileName := file,
                  url := "/recordings/" ++ url.name ++ "/" ++ file })) ∧
          names.Sorted nameLe ∧
          ((fs.map Prod.fst).Nodup → names.Nodup) ∧
          (∀ n : String, n ∈ names ↔
            ∃ e, stat fs ((pathJoin (recordingsDir rt) url.name).segs ++ [n]) = some e) ∧
          ((∀ n : String,
              stat fs ((pathJoin (recordingsDir rt) url.name).segs ++ [n]) = none) →
            getRecordings rt fs url = .json200 [])) := by
  have hT : pathJoin (recordingsDir rt) url.name =
      { segs := (recordingsDir rt).segs ++ [url.name], trailingSlash := false } :=
    pathJoin_plain_eq _ _ (recordingsDir_segs_kept rt) (isRoomSegment_plain url.ordinary)
  refine ⟨?_, ?_, ?_⟩
  · intro hex
    have hstatic : serveStatic rt fs url = none := by
      rw [serveStatic_eq]
      cases url.trailingSlash with
      | true =>
        simp only [if_true]
        rw [hT] at hex ⊢
        rw [statPath_child_none fs _ "index.html" false (by simp) hex]
      | false =>
        have hnone : statPath fs (pathJoin (recordingsDir rt) url.name) = none := by
          have := existsSync_eq_statPath fs (pathJoin (recordingsDir rt) url.name)
          rw [hex] at this
          cases hs : statPath fs (pathJoin (recordingsDir rt) url.name) with
          | none => rfl
          | some e => rw [hs] at this; cases this
        simp only [Bool.false_eq_true, if_false, hnone]
    simp [getRecordings, hstatic, listRecordings, hex]
  · intro hdir hslash
    have hstat := statPath_of_roomDirExists hdir
    simp only [getRecordings, serveStatic_eq, hslash, Bool.false_eq_true, if_false, hstat]
  · intro hdir hslash hindex
    have hstatic : serveStatic rt fs url = none := by
      rw [serveStatic_eq, hslash]
      simp only [if_true]
      cases hs : statPath fs
          { segs := (pathJoin (recordingsDir rt) url.name).segs ++ ["index.html"],
            trailingSlash := false } with
      | none => rfl
      | some e =>
        cases e with
        | dir => rfl
        | file c =>
          exfalso
          have hfile : stat fs
              ((pathJoin (recordingsDir rt) url.name).segs ++ ["index.html"])
                = some (.file c) := by
            unfold statPath at hs
            split at hs
            · cases hs
            · split at hs
              · cases hs
              · split at hs
                · rename_i hfile
                  simp only [Bool.false_eq_true, if_false, Option.some.injEq,
                    Entry.file.injEq] at hs
                  rw [← hs]
                  exact hfile
                · cases hs
                · cases hs
          simp [isRegularFile, hfile] at hindex
    have hlist : getRecordings rt fs url
        = .json200 ((children fs (pathJoin (recordingsDir rt) url.name).segs).map
            (fileInfo url.name)) := by
      simp only [getRecordings, hstatic, listRecordings_of_dir hdir]
    refine ⟨children fs (pathJoin (recordingsDir rt) url.name).segs, hlist,
      sorted_children fs _, nodup_children fs _, mem_children fs _, ?_⟩
    intro hempty
    have hnil : children fs (pathJoin (recordingsDir rt) url.name).segs = [] := by
      apply List.eq_nil_iff_forall_not_mem.mpr
      intro n hn
      obtain ⟨e, he⟩ := (mem_children fs _ n).1 hn
      rw [hempty n] at he
      cases he
    rw [hlist, hnil]
    rfl

/-- The rooms of the concrete trees: a room that does not exist, the room
`r1` right after its directory was created, and the room `r1` with a
subdirectory and a recording, asked for without and with the trailing
slash. -/
theorem listing_of_room_witness :
    getRecordings nodeRuntime freshTree ⟨"r1", false, by decide⟩
        = .json404 "Room not found" ∧
      getRecordings nodeRuntime emptyRoomTree ⟨"r1", false, by decide⟩
        = .movedPermanently ∧
      (∃ names : List String,
        getRecordings nodeRuntime nestedTree ⟨"r1", true, by decide⟩
          = .json200 (names.map (fun file =>
              { fileName := file, url := "/recordings/" ++ "r1" ++ "/" ++ file })) ∧
        names.Sorted nameLe ∧
        ((nestedTree.map Prod.fst).Nodup → names.Nodup) ∧
        (∀ n : String, n ∈ names ↔
          ∃ e, stat nestedTree
            ((pathJoin (recordingsDir nodeRuntime) "r1").segs ++ [n]) = some e) ∧
        ((∀ n : String,
            stat nestedTree ((pathJoin (recordingsDir nodeRuntime) "r1").segs ++ [n]) = none) →
          getRecordings nodeRuntime nestedTree ⟨"r1", true, by decide⟩ = .json200 [])) :=
  ⟨(listing_of_room nodeRuntime freshTree ⟨"r1", false, by decide⟩).1 (by decide),
    (listing_of_room nodeRuntime emptyRoomTree ⟨"r1", false, by decide⟩).2.1
      (by decide) rfl,
    (listing_of_room nodeRuntime nestedTree ⟨"r1", true, by decide⟩).2.2
      (by decide) rfl (by decide)⟩

end RecordingServer
